import Mathlib

/-!
# Verification of `recordfile` (package `recordfile`, file `recordfile.go`)

A shallow embedding of the decode pipeline of the `recordfile` Go package:
schema construction (`New`), tokenization (`ReadData`), row validation,
per-field coercion (`strconv.ParseBool` / `ParseInt` / `ParseUint` /
`ParseFloat` with base 0 radix detection), index building with duplicate
detection, and the `RecordFile` accessors (`NumRecord`, `Record`, `Indexes`,
`Index`).

Modelling conventions:
* File I/O (`os.Open`, `ioutil.ReadAll`) is an excluded external collaborator;
  the embedding takes the raw file content as a `String`.  The two error
  checks inside `ReadData`'s loop test the `ReadAll` error which is already
  known to be `nil` at that point (dead code) and are therefore not modelled.
* Go machine integers are modelled as `Nat`/`Int`; the `strconv` parsers
  work in exact arithmetic with the same accept/reject behaviour (the
  `uint64` cutoff test in `ParseUint` is equivalent to comparing the exact
  value against `maxVal`, since `maxVal ≤ 2^64 - 1`).
* Floating point fields: the syntax accepted by `strconv.ParseFloat` is
  modelled faithfully, and the resulting value is the IEEE-754
  round-to-nearest-even of the literal's exact value onto the binary grid
  of the declared bit width (every float64/float32 being an exact rational,
  the grid value is kept as that rational), with subnormals, underflow to
  zero, and overflow to infinity (`ErrRange`) at the exact rounding
  boundary `2^1024` / `2^128`.  Go map-key equality on `interface{}`
  values is `goKeyEq`: structural equality except that a float64 NaN key
  compares unequal to everything, itself included, so stored NaN index
  entries are unretrievable and never trigger the duplicate check.
* Struct fields of the representative record shape are modelled as exported
  fields: `reflect`'s `CanSet` is true exactly for exported struct fields,
  so the `if !field.CanSet() { continue }` branch of `Read` is identically
  dead in this model.
* `json.Unmarshal` (used for struct/array/slice/map fields) is standard
  library code external to this repository; the development is parameterized
  by an arbitrary composite decoder `jdec` returning values in an arbitrary
  type `γ` with decidable equality (Go map keys require comparability).
* Go `map[interface{}]interface{}` is modelled as an association list from
  coerced values to record positions; the stored "record reference"
  (`records[n-1]`, a pointer) is modelled by the record's position `n-1`.
* A Go run-time panic (negative slice length in `make`, out-of-range slice
  index) is modelled by a dedicated constructor of the result type.
-/

set_option linter.unusedVariables false
set_option linter.unusedSectionVars false

namespace Recordfile

/-- One `reflect.Kind` of a struct field, joined with `Type.Bits()` for the
numeric kinds.  `reflect.Int`/`Uint` are 64 bits wide on the platforms this
package targets (`strconv.IntSize = 64`), so they are `kInt 64`/`kUint 64`.
`kOther` stands for every remaining `reflect.Kind` (pointer, chan, func,
interface, complex, ...), which `New` rejects. -/
inductive Kind where
  | kBool
  | kInt (bits : Nat)
  | kUint (bits : Nat)
  | kFloat (bits : Nat)
  | kString
  | kStruct
  | kArray
  | kSlice
  | kMap
  | kOther (tyName : String)
  deriving DecidableEq, Repr

/-- One field of the representative record struct: `reflect.StructField`'s
name, kind (with bit width) and tag. -/
structure Field where
  name : String
  kind : Kind
  tag : String
  deriving DecidableEq, Repr

/-- The argument of `New`: `reflect.TypeOf(st)` is either a struct type with
a field list, or anything else (including a nil interface), which `New`
rejects with the same error. -/
inductive GoType where
  | structT (fields : List Field)
  | nonStruct
  deriving DecidableEq, Repr

/-- The `switch kind` in `New` (recordfile.go:40-62): every kind except the
listed ones falls through to `default` and is rejected. -/
def kindValid : Kind → Bool
  | .kOther _ => false
  | _ => true

/-- The kinds `New` refuses to index (recordfile.go:67): `reflect.Struct`,
`reflect.Slice`, `reflect.Map`.  Note `reflect.Array` is not in this list. -/
def kindUnindexable : Kind → Bool
  | .kStruct => true
  | .kSlice => true
  | .kMap => true
  | _ => false

/-- Errors returned by `New`, carrying the payloads of the formatted
messages (recordfile.go:33,60,68). -/
inductive NewErr where
  | notStruct
  | invalidType (name : String) (kind : Kind)
  | couldNotIndex (kind : Kind) (fieldIdx : Nat) (name : String)
  deriving DecidableEq, Repr

/-- The field-validation loop of `New` (recordfile.go:36-72): the first
offending field produces the error. -/
def checkFields : List Field → Nat → Option NewErr
  | [], _ => none
  | f :: fs, i =>
    if ¬ kindValid f.kind then some (.invalidType f.name f.kind)
    else if f.tag = "index" ∧ kindUnindexable f.kind then
      some (.couldNotIndex f.kind i f.name)
    else checkFields fs (i + 1)

/- ## strconv parsing primitives (Go standard library, as called by `Read`) -/

/-- `strconv`'s error kinds `ErrSyntax` and `ErrRange`. -/
inductive NumErr where
  | syntaxErr
  | rangeErr
  deriving DecidableEq, Repr

/-- Go `strconv`'s `lower(c byte) byte = c | ('x' - 'X')`, on characters.
For the non-ASCII characters that can appear here the result is never one
of the ASCII letters the callers compare against, matching the byte-level
behaviour. -/
def lowerC (c : Char) : Char := Char.ofNat (c.toNat ||| 0x20)

/-- Digit decoding in `ParseUint`'s loop: `'0'..'9'` and (case folded)
`'a'..'z'`, the latter valued 10..35. -/
def digitVal (c : Char) : Option Nat :=
  if '0' ≤ c ∧ c ≤ '9' then some (c.toNat - '0'.toNat)
  else if 'a' ≤ lowerC c ∧ lowerC c ≤ 'z' then some ((lowerC c).toNat - 'a'.toNat + 10)
  else none

/-- The state machine of `strconv.underscoreOK`'s main loop; `saw` is `'^'`
at the beginning, `'0'` after a digit (or the base prefix), `'_'` after an
underscore and `'!'` after anything else. -/
def underscoreOKLoop (hex : Bool) : List Char → Char → Bool
  | [], saw => saw ≠ '_'
  | c :: cs, saw =>
    if ('0' ≤ c ∧ c ≤ '9') ∨ (hex ∧ 'a' ≤ lowerC c ∧ lowerC c ≤ 'f') then
      underscoreOKLoop hex cs '0'
    else if c = '_' then
      if saw = '0' then underscoreOKLoop hex cs '_' else false
    else if saw = '_' then false
    else underscoreOKLoop hex cs '!'

/-- `strconv.underscoreOK`: underscores must separate successive digits
(the base prefix counting as a digit). -/
def underscoreOK (s : String) : Bool :=
  let cs := s.toList
  let cs := match cs with
    | c :: rest => if c = '-' ∨ c = '+' then rest else cs
    | [] => cs
  match cs with
  | c0 :: c1 :: rest =>
    if c0 = '0' ∧ (lowerC c1 = 'b' ∨ lowerC c1 = 'o' ∨ lowerC c1 = 'x') then
      underscoreOKLoop (lowerC c1 = 'x') rest '0'
    else underscoreOKLoop false (c0 :: c1 :: rest) '^'
  | _ => underscoreOKLoop false cs '^'

/-- The digit loop of `strconv.ParseUint`, in exact arithmetic.  Returns the
accumulated value and whether an underscore was seen.  Go's two overflow
tests (`n >= cutoff` against `uint64` and `n1 > maxVal`) are together
equivalent to `maxVal < n * base + d` in exact arithmetic. -/
def parseUintLoop (base0 : Bool) (base maxVal : Nat) :
    List Char → Nat → Bool → Except NumErr (Nat × Bool)
  | [], n, u => .ok (n, u)
  | c :: cs, n, u =>
    if c = '_' ∧ base0 then parseUintLoop base0 base maxVal cs n true
    else
      match digitVal c with
      | none => .error .syntaxErr
      | some d =>
        if base ≤ d then .error .syntaxErr
        else if maxVal < n * base + d then .error .rangeErr
        else parseUintLoop base0 base maxVal cs (n * base + d) u

/-- `strconv.ParseUint(s, base, bitSize)`.  `Read` always calls it with
`base = 0` (radix detected from the prefix: `0b`/`0o`/`0x`, a bare leading
`0` meaning octal, otherwise decimal) and `bitSize ∈ {8,16,32,64}`.
For `base = 0`, underscores are allowed if `underscoreOK` holds. -/
def parseUint (s : String) (base bitSize : Nat) : Except NumErr Nat :=
  if s = "" then .error .syntaxErr
  else
    let base0 := base = 0
    let cs := s.toList
    let bd : Nat × List Char :=
      if 2 ≤ base ∧ base ≤ 36 then (base, cs)
      else
        match cs with
        | c0 :: c1 :: c2 :: rest =>
          if c0 = '0' then
            if lowerC c1 = 'b' then (2, c2 :: rest)
            else if lowerC c1 = 'o' then (8, c2 :: rest)
            else if lowerC c1 = 'x' then (16, c2 :: rest)
            else (8, c1 :: c2 :: rest)
          else (10, cs)
        | c0 :: rest => if c0 = '0' then (8, rest) else (10, cs)
        | [] => (10, cs)
    let bitSize := if bitSize = 0 then 64 else bitSize
    let maxVal := 2 ^ bitSize - 1
    match parseUintLoop base0 bd.1 maxVal bd.2 0 false with
    | .error e => .error e
    | .ok (n, u) => if u ∧ ¬ underscoreOK s then .error .syntaxErr else .ok n

/-- `strconv.ParseInt(s, base, bitSize)`: strip the sign, run `ParseUint`
(whose range failure yields `un = maxVal` and is not fatal yet), then check
against the signed cutoff `2^(bitSize-1)`. -/
def parseInt (s : String) (base bitSize : Nat) : Except NumErr Int :=
  if s = "" then .error .syntaxErr
  else
    let cs := s.toList
    let signRest : Bool × List Char :=
      match cs with
      | c :: r => if c = '+' then (false, r) else if c = '-' then (true, r) else (false, cs)
      | [] => (false, cs)
    let neg := signRest.1
    let bitSize' := if bitSize = 0 then 64 else bitSize
    let cutoff := 2 ^ (bitSize' - 1)
    let finish : Nat → Except NumErr Int := fun un =>
      if ¬ neg ∧ cutoff ≤ un then .error .rangeErr
      else if neg ∧ cutoff < un then .error .rangeErr
      else .ok (if neg then -(un : Int) else (un : Int))
    match parseUint (String.mk signRest.2) base bitSize with
    | .error .syntaxErr => .error .syntaxErr
    | .error .rangeErr => finish (2 ^ bitSize' - 1)
    | .ok un => finish un

/-- `strconv.ParseBool`: the exact set of accepted spellings. -/
def parseBool (s : String) : Except NumErr Bool :=
  match s with
  | "1" => .ok true
  | "t" => .ok true
  | "T" => .ok true
  | "true" => .ok true
  | "TRUE" => .ok true
  | "True" => .ok true
  | "0" => .ok false
  | "f" => .ok false
  | "F" => .ok false
  | "false" => .ok false
  | "FALSE" => .ok false
  | "False" => .ok false
  | _ => .error .syntaxErr

/- ## strconv.ParseFloat -/

/-- The value of a parsed float literal.  The finite case carries the
IEEE-754 value `ParseFloat` returns, as the exact rational it denotes.
Go's `-0.0` and `+0.0` are equal both as `float64`s and as map keys,
matching the collapse to the rational `0` here. -/
inductive FloatVal where
  | finite (q : ℚ)
  | inf (neg : Bool)
  | nan
  deriving DecidableEq, Repr

/-- `strconv.special` combined with `ParseFloat`'s requirement that the
whole input be consumed: an optional sign followed by `inf`/`infinity`
(case-insensitive), or unsigned `nan` (case-insensitive). -/
def parseFloatSpecial (s : String) : Option FloatVal :=
  match s.toList with
  | [] => none
  | c :: rest =>
    if c = '+' ∨ c = '-' then
      let low := rest.map lowerC
      if low = "inf".toList ∨ low = "infinity".toList then some (.inf (c = '-'))
      else none
    else
      let low := (c :: rest).map lowerC
      if low = "inf".toList ∨ low = "infinity".toList then some (.inf false)
      else if low = "nan".toList then some .nan
      else none

/-- Mantissa digit of `readFloat`: decimal digits always, `a`..`f` (case
folded) when scanning a hex mantissa. -/
def mantDigitVal (hex : Bool) (c : Char) : Option Nat :=
  if '0' ≤ c ∧ c ≤ '9' then some (c.toNat - '0'.toNat)
  else if hex ∧ 'a' ≤ lowerC c ∧ lowerC c ≤ 'f' then some ((lowerC c).toNat - 'a'.toNat + 10)
  else none

/-- The mantissa loop of `strconv.readFloat`: consumes digits, underscores
and at most one dot, accumulating the exact mantissa and the count of
fractional digits.  Returns `(mantissa, fracDigits, sawDigits, rest)`;
it stops at the first other character (including a second dot). -/
def scanMant (hex : Bool) : List Char → Bool → Nat → Nat → Bool → Nat × Nat × Bool × List Char
  | [], _, mant, frac, sawdig => (mant, frac, sawdig, [])
  | c :: cs, sawdot, mant, frac, sawdig =>
    if c = '_' then scanMant hex cs sawdot mant frac sawdig
    else if c = '.' then
      if sawdot then (mant, frac, sawdig, c :: cs)
      else scanMant hex cs true mant frac sawdig
    else
      match mantDigitVal hex c with
      | some d =>
        scanMant hex cs sawdot (mant * (if hex then 16 else 10) + d)
          (if sawdot then frac + 1 else frac) true
      | none => (mant, frac, sawdig, c :: cs)

/-- The exponent digit loop of `readFloat`: decimal digits and underscores. -/
def scanExpDigits : List Char → Int → Int × List Char
  | [], e => (e, [])
  | c :: cs, e =>
    if c = '_' then scanExpDigits cs e
    else if '0' ≤ c ∧ c ≤ '9' then scanExpDigits cs (e * 10 + (c.toNat - '0'.toNat : Nat))
    else (e, c :: cs)

/-- The exponent part after the `e`/`p` marker: optional sign, a mandatory
leading decimal digit, then digits and underscores up to the end of the
input (`ParseFloat` rejects unconsumed trailing characters).  Go caps the
accumulated exponent at 10000; the exact value is kept here, which decides
acceptance identically and differs only on literals that are out of range
either way. -/
def scanSignedExp (r : List Char) : Option Int :=
  let sr : Int × List Char :=
    match r with
    | '+' :: t => (1, t)
    | '-' :: t => (-1, t)
    | t => (1, t)
  match sr.2 with
  | c :: _ =>
    if '0' ≤ c ∧ c ≤ '9' then
      let er := scanExpDigits sr.2 0
      if er.2 = [] then some (sr.1 * er.1) else none
    else none
  | [] => none

/-- `strconv.readFloat` restricted to inputs that `ParseFloat` accepts in
full (`none` = syntax error), returning the exact rational value of the
literal: optional sign, then either a decimal mantissa with optional `e`
exponent, or a `0x` hex mantissa with mandatory `p` (power of two)
exponent; underscores must satisfy `underscoreOK`. -/
def readFloatQ (s : String) : Option ℚ :=
  let cs := s.toList
  let sgn : Bool × List Char :=
    match cs with
    | '+' :: r => (false, r)
    | '-' :: r => (true, r)
    | r => (false, r)
  let hx : Bool × List Char :=
    match sgn.2 with
    | '0' :: x :: c :: rest =>
      if lowerC x = 'x' then (true, c :: rest) else (false, sgn.2)
    | _ => (false, sgn.2)
  let sc := scanMant hx.1 hx.2 false 0 0 false
  let mant := sc.1
  let frac := sc.2.1
  let sawdig := sc.2.2.1
  let rest := sc.2.2.2
  if ¬ sawdig then none
  else
    let expRes : Option Int :=
      if hx.1 then
        match rest with
        | p :: r => if lowerC p = 'p' then scanSignedExp r else none
        | [] => none
      else
        match rest with
        | [] => some 0
        | e :: r => if lowerC e = 'e' then scanSignedExp r else none
    match expRes with
    | none => none
    | some ex =>
      if cs.contains '_' ∧ ¬ underscoreOK s then none
      else
        let q : ℚ :=
          if hx.1 then (mant : ℚ) * (2 : ℚ) ^ ex / (16 : ℚ) ^ frac
          else (mant : ℚ) * (10 : ℚ) ^ (ex - (frac : Int))
        some (if sgn.1 then -q else q)

/-- Fuel-structural integer base-2 logarithm: `nlog2 fuel n = ⌊log₂ n⌋`
whenever `1 ≤ n ≤ 2^fuel`. -/
def nlog2 : Nat → Nat → Nat
  | 0, _ => 0
  | fuel + 1, n => if n ≤ 1 then 0 else nlog2 fuel (n / 2) + 1

/-- `2^e` as a rational, for a signed exponent. -/
def zpow2 (e : Int) : ℚ :=
  if 0 ≤ e then ((2 ^ e.toNat : Nat) : ℚ) else 1 / ((2 ^ (-e).toNat : Nat) : ℚ)

/-- `⌊log₂ q⌋` of a positive rational: bracket by the numerator's and
denominator's integer logarithms, then adjust by direct comparison. -/
def floorLog2 (q : ℚ) : Int :=
  let a : Int := nlog2 q.num.toNat q.num.toNat
  let b : Int := nlog2 q.den q.den
  let e0 : Int := a - b
  if q < zpow2 e0 then e0 - 1 else if q < zpow2 (e0 + 1) then e0 else e0 + 1

/-- Round a rational to an integer, to nearest, ties to even. -/
def roundHalfEven (x : ℚ) : Int :=
  let f : Int := ⌊x⌋
  let r : ℚ := x - (f : ℚ)
  if r < 1 / 2 then f
  else if 1 / 2 < r then f + 1
  else if f % 2 = 0 then f else f + 1

/-- IEEE-754 round-to-nearest-even of a positive rational onto the binary
grid with `mbits` mantissa bits, minimum normal exponent `emin` and
maximum exponent `emax`: values below the normal range round on the
subnormal grid (underflow collapsing to zero); `none` when the rounded
magnitude reaches `2^(emax+1)` (overflow to infinity). -/
def roundPos (mbits : Nat) (emin emax : Int) (q : ℚ) : Option ℚ :=
  let e : Int := max (floorLog2 q) emin
  let m : Int := roundHalfEven (q * zpow2 ((mbits : Int) - e))
  let v : ℚ := (m : ℚ) * zpow2 (e - (mbits : Int))
  if zpow2 (emax + 1) ≤ v then none else some v

/-- The IEEE-754 rounding `strconv.ParseFloat` applies to the literal's
exact value: to the float32 grid for `bitSize = 32` (the Go code stores
the result widened to `float64`, which is exact), to the float64 grid
otherwise; `none` = ±Inf (range error). -/
def roundFloat (bitSize : Nat) (q : ℚ) : Option ℚ :=
  let mbits : Nat := if bitSize = 32 then 23 else 52
  let emin : Int := if bitSize = 32 then -126 else -1022
  let emax : Int := if bitSize = 32 then 127 else 1023
  if q = 0 then some 0
  else if 0 < q then roundPos mbits emin emax q
  else Option.map (fun v => -v) (roundPos mbits emin emax (-q))

/-- `strconv.ParseFloat(s, bitSize)`: special values, then the literal
grammar, then IEEE-754 rounding to the bit width; a literal whose rounded
magnitude overflows to ±Inf gives `ErrRange`. -/
def parseFloat (s : String) (bitSize : Nat) : Except NumErr FloatVal :=
  if s = "" then .error .syntaxErr
  else
    match parseFloatSpecial s with
    | some v => .ok v
    | none =>
      match readFloatQ s with
      | none => .error .syntaxErr
      | some q =>
        match roundFloat bitSize q with
        | none => .error .rangeErr
        | some v => .ok (.finite v)

/- ## strings helpers used by `Read` -/

/-- `unicode.IsSpace`, by its truth table (the `White_Space` code points). -/
def isSpaceGo (c : Char) : Bool :=
  c = ' ' ∨ c = '\t' ∨ c = '\n' ∨ c.toNat = 0x0B ∨ c.toNat = 0x0C ∨ c = '\r' ∨
    c.toNat = 0x85 ∨ c.toNat = 0xA0 ∨ c.toNat = 0x1680 ∨
    (0x2000 ≤ c.toNat ∧ c.toNat ≤ 0x200A) ∨ c.toNat = 0x2028 ∨ c.toNat = 0x2029 ∨
    c.toNat = 0x202F ∨ c.toNat = 0x205F ∨ c.toNat = 0x3000

/-- `strings.TrimSpace`. -/
def trimSpace (s : String) : String :=
  String.mk (((s.toList.dropWhile isSpaceGo).reverse.dropWhile isSpaceGo).reverse)

/-- Worker for `goSplit`: cut the remaining characters at every leftmost
non-overlapping occurrence of `sep`, accumulating the current chunk in
reverse.  The fuel argument only serves structural termination; it is at
least the number of remaining characters at every call (each step either
ends or consumes at least one character), so the fuel-exhausted branch is
never taken. -/
def goSplitAux (sep : List Char) : Nat → List Char → List Char → List (List Char)
  | _, [], acc => [acc.reverse]
  | 0, s, acc => [acc.reverse ++ s]
  | fuel + 1, c :: rest, acc =>
    if sep.isPrefixOf (c :: rest) then
      acc.reverse :: goSplitAux sep fuel (List.drop sep.length (c :: rest)) []
    else goSplitAux sep fuel rest (c :: acc)

/-- Go `strings.Split(s, sep)` for a nonempty separator (every call site
splits with a configuration string that `Read` has already replaced by a
nonempty default if it was empty). -/
def goSplit (s sep : String) : List String :=
  (goSplitAux sep.toList s.toList.length s.toList []).map String.mk

/-- Go `strings.HasPrefix`. -/
def hasPrefixStr (s pre : String) : Bool := pre.toList.isPrefixOf s.toList

/-- Go `strings.HasSuffix`. -/
def hasSuffixStr (s suf : String) : Bool := suf.toList.isSuffixOf s.toList

/- ## Values, coercion, and the `Read` pipeline -/

/-- The coerced value of one field, i.e. what `field.Interface()` boxes
after the per-kind assignment in `Read`.  `γ` is the value domain of the
external composite (`json.Unmarshal`) decoder.  `vUnset` is the zero value
of a field whose kind matches none of `Read`'s branches (impossible for a
`RecordFile` built by `New`). -/
inductive Value (γ : Type) where
  | vBool (b : Bool)
  | vInt (i : Int)
  | vUint (n : Nat)
  | vFloat (f : FloatVal)
  | vStr (s : String)
  | vComposite (c : γ)
  | vUnset
  deriving DecidableEq, Repr

/-- The payload of the `parse field (row, col) error` message: the wrapped
parser error. -/
inductive CoerceErr where
  | numErr (e : NumErr)
  | jsonErr
  deriving DecidableEq, Repr

section WithComposite

variable {γ : Type} [DecidableEq γ]

/-- One branch dispatch of `Read`'s per-field loop (recordfile.go:179-232):
coerce one token to the field's kind.  Numeric kinds replace an
all-whitespace token by `"0"` first; parsing uses base 0 (radix prefixes)
sized to the field's bit width.  `jdec` is the external `json.Unmarshal`
collaborator for struct/array/slice/map fields (`none` = decode error). -/
def coerceField (jdec : Field → String → Option γ) (f : Field) (tok : String) :
    Except CoerceErr (Value γ) :=
  match f.kind with
  | .kBool =>
    match parseBool tok with
    | .ok b => .ok (.vBool b)
    | .error e => .error (.numErr e)
  | .kInt bits =>
    let t := if trimSpace tok = "" then "0" else tok
    match parseInt t 0 bits with
    | .ok v => .ok (.vInt v)
    | .error e => .error (.numErr e)
  | .kUint bits =>
    let t := if trimSpace tok = "" then "0" else tok
    match parseUint t 0 bits with
    | .ok v => .ok (.vUint v)
    | .error e => .error (.numErr e)
  | .kFloat bits =>
    let t := if trimSpace tok = "" then "0" else tok
    match parseFloat t bits with
    | .ok v => .ok (.vFloat v)
    | .error e => .error (.numErr e)
  | .kString => .ok (.vStr tok)
  | .kStruct =>
    match jdec f tok with
    | some c => .ok (.vComposite c)
    | none => .error .jsonErr
  | .kArray =>
    match jdec f tok with
    | some c => .ok (.vComposite c)
    | none => .error .jsonErr
  | .kSlice =>
    match jdec f tok with
    | some c => .ok (.vComposite c)
    | none => .error .jsonErr
  | .kMap =>
    match jdec f tok with
    | some c => .ok (.vComposite c)
    | none => .error .jsonErr
  | .kOther _ => .ok .vUnset

end WithComposite

/-- `type Index map[interface{}]interface{}`, modelled as an association
list from coerced values to record positions (the stored `records[n-1]`
pointer is identified with the position `n-1`). -/
abbrev Index (γ : Type) : Type := List (Value γ × Nat)

section ReadPipeline

variable {γ : Type} [DecidableEq γ]

/-- Whether a coerced value is a float NaN: the one `interface{}` map key
whose Go `==` comparison is false against every key, itself included. -/
def isNaNKey : Value γ → Bool
  | .vFloat .nan => true
  | _ => false

/-- Go's `==` on `interface{}` map keys: structural equality, except that
a float64 NaN never compares equal to anything (`NaN != NaN`), so a NaN
key is inserted but can never be found again. -/
def goKeyEq (a b : Value γ) : Bool := !(isNaNKey a) && decide (a = b)

/-- Go map lookup on the association list (non-NaN keys are unique by
construction, so the first Go-equal match is the only one; NaN entries
match nothing). -/
def idxGet : Index γ → Value γ → Option Nat
  | [], _ => none
  | kv :: rest, key => if goKeyEq kv.1 key then some kv.2 else idxGet rest key

/-- The index-allocation loop of `Read` (recordfile.go:146-152): one empty
`Index` per field whose tag is exactly `index`, in declaration order. -/
def initIndexes (fields : List Field) : List (Index γ) :=
  (fields.filter fun f => f.tag = "index").map fun _ => ([] : List (Value γ × Nat))

/-- Errors returned by `Read`, with the payloads of the formatted messages:
row/field-count mismatch (recordfile.go:161), field parse error
(recordfile.go:235), duplicate index key (recordfile.go:244). -/
inductive ReadErr where
  | fieldCountMismatch (line fileCount stCount : Nat)
  | parseField (row col : Nat) (e : CoerceErr)
  | duplicateIndex (row col : Nat)
  deriving DecidableEq, Repr

/-- The per-field loop of `Read` for data row `n` (recordfile.go:167-249):
walk the fields and the row's tokens in lockstep (the caller has already
checked that the row has exactly as many tokens as there are fields),
coercing each token and, for each field tagged `index`, first failing if
the coerced value is already a key of the current slot's index (key
equality being Go's `==`, which a NaN key never satisfies) and otherwise
inserting it, pointing at record position `n - 1`.  Returns the
fully coerced record and the updated indexes. -/
def readFields (jdec : Field → String → Option γ) (n : Nat) :
    List Field → List String → Nat → Nat → List (Index γ) →
      Except ReadErr (List (Value γ) × List (Index γ))
  | [], _, _, _, idxs => .ok ([], idxs)
  | f :: fs, toks, i, iIdx, idxs =>
    match coerceField jdec f (toks.headD "") with
    | .error e => .error (.parseField n i e)
    | .ok v =>
      if f.tag = "index" then
        let idx := idxs.getD iIdx []
        if (idxGet idx v).isSome then .error (.duplicateIndex n i)
        else
          match readFields jdec n fs toks.tail (i + 1) (iIdx + 1)
              (idxs.set iIdx ((v, n - 1) :: idx)) with
          | .error e => .error e
          | .ok (vs, idxs') => .ok (v :: vs, idxs')
      else
        match readFields jdec n fs toks.tail (i + 1) iIdx idxs with
        | .error e => .error e
        | .ok (vs, idxs') => .ok (v :: vs, idxs')

/-- The data-row loop of `Read` (recordfile.go:154-250), starting at
`n = 1` (the 1-based data-row number; row 0 of the retained rows is the
discarded header).  Each row must have exactly `fields.length` tokens;
rows are processed in order and the first error aborts the loop. -/
def readRows (jdec : Field → String → Option γ) (fields : List Field) :
    List (List String) → Nat → List (Index γ) →
      Except ReadErr (List (List (Value γ)) × List (Index γ))
  | [], _, idxs => .ok ([], idxs)
  | row :: rest, n, idxs =>
    if row.length ≠ fields.length then
      .error (.fieldCountMismatch n row.length fields.length)
    else
      match readFields jdec n fields row 0 0 idxs with
      | .error e => .error e
      | .ok (rec, idxs') =>
        match readRows jdec fields rest (n + 1) idxs' with
        | .error e => .error e
        | .ok (recs, idxs'') => .ok (rec :: recs, idxs'')

end ReadPipeline

/-- Package-level default field delimiter. -/
def Comma : String := "~"

/-- Package-level default comment marker. -/
def Comment : String := "#"

/-- Package-level default line terminator. -/
def LineEndStr : String := "!####!\n"

/-- The `RecordFile` struct.  `New` leaves the three configuration strings
empty (`Read` fills in the package defaults) and `records`/`indexes` nil. -/
structure RecordFile (γ : Type) where
  Comma : String
  Comment : String
  LineEndStr : String
  typeRecord : List Field
  records : List (List (Value γ))
  indexes : List (Index γ)
  deriving DecidableEq

section RecordFileOps

variable {γ : Type} [DecidableEq γ]

/-- `New(st)` (recordfile.go:30-78): requires a struct type, validates
every field's kind and index tag, and returns a `RecordFile` holding only
the type descriptor. -/
def new (st : GoType) : Except NewErr (RecordFile γ) :=
  match st with
  | .nonStruct => .error .notStruct
  | .structT fields =>
    match checkFields fields 0 with
    | some e => .error e
    | none =>
      .ok { Comma := "", Comment := "", LineEndStr := "",
            typeRecord := fields, records := [], indexes := [] }

/-- The tokenization step performed by `ReadData` (recordfile.go:92-119)
on the file's content (the `os.Open`/`ReadAll` I/O and its two dead error
re-checks inside the loop are the excluded I/O collaborator): split on the
line terminator, drop empty chunks, strip one trailing newline character,
drop comment chunks, split the rest on the field delimiter. -/
def RecordFile.ReadData (rf : RecordFile γ) (content : String) : List (List String) :=
  (goSplit content rf.LineEndStr).filterMap fun line =>
    if line = "" then none
    else
      let line := if hasSuffixStr line "\n" then String.mk line.toList.dropLast else line
      if hasPrefixStr line rf.Comment then none
      else some (goSplit line rf.Comma)

/-- The defaulting prologue of `Read` (recordfile.go:123-132): empty
configuration strings are replaced by the package defaults (in place, on
the receiver). -/
def applyDefaults (rf : RecordFile γ) : RecordFile γ :=
  { rf with
    Comma := if rf.Comma = "" then Comma else rf.Comma
    Comment := if rf.Comment = "" then Comment else rf.Comment
    LineEndStr := if rf.LineEndStr = "" then LineEndStr else rf.LineEndStr }

/-- The outcome of `Read`: normal success, an error return (with the
receiver's state at return time), or a run-time panic.  The panic happens
at `make([]interface{}, len(lines)-1)` (recordfile.go:143) when the
tokenizer retained no row at all: `len(lines) - 1` is the negative `int`
`-1` and `make` panics with `makeslice: len out of range`. -/
inductive ReadResult (γ : Type) where
  | ok (rf : RecordFile γ)
  | err (rf : RecordFile γ) (e : ReadErr)
  | panicked (rf : RecordFile γ)
  deriving DecidableEq

/-- `Read` (recordfile.go:122-256): apply the configuration defaults,
tokenize, allocate the record slice (panicking if no row was retained),
build one empty index per `index`-tagged field, process the data rows
(`lines[1:]`, the first retained row being the discarded header), and
only on full success publish the new `records` and `indexes` on the
receiver. -/
def RecordFile.Read (jdec : Field → String → Option γ) (rf : RecordFile γ)
    (content : String) : ReadResult γ :=
  let rf := applyDefaults rf
  let lines := rf.ReadData content
  if lines.length = 0 then .panicked rf
  else
    match readRows jdec rf.typeRecord lines.tail 1 (initIndexes rf.typeRecord) with
    | .error e => .err rf e
    | .ok (recs, idxs) => .ok { rf with records := recs, indexes := idxs }

/-- `NumRecord` (recordfile.go:262-264). -/
def RecordFile.NumRecord (rf : RecordFile γ) : Nat := rf.records.length

/-- The outcome of `Record(i)`: the record, or the run-time panic of the
bounds-checked slice access `rf.records[i]`. -/
inductive RecordResult (γ : Type) where
  | val (r : List (Value γ))
  | panicked
  deriving DecidableEq

/-- `Record(i)` (recordfile.go:258-260): `rf.records[i]`, panicking when
`i` is outside `[0, len(rf.records))`. -/
def RecordFile.Record (rf : RecordFile γ) (i : Int) : RecordResult γ :=
  if 0 ≤ i ∧ i < (rf.records.length : Int) then .val (rf.records.getD i.toNat [])
  else .panicked

/-- The outcome of `Indexes(i)`: the nil "no index" result, an index, or
the run-time panic of `rf.indexes[i]` on a negative `i`. -/
inductive IndexesResult (γ : Type) where
  | nilIndex
  | found (idx : Index γ)
  | panicked
  deriving DecidableEq

/-- `Indexes(i)` (recordfile.go:266-271): `nil` when `i >= len(rf.indexes)`,
otherwise the slice access `rf.indexes[i]`, which panics when `i < 0`. -/
def RecordFile.Indexes (rf : RecordFile γ) (i : Int) : IndexesResult γ :=
  if (rf.indexes.length : Int) ≤ i then .nilIndex
  else if i < 0 then .panicked
  else .found (rf.indexes.getD i.toNat [])

/-- `Index(i)` (recordfile.go:273-279): single-key lookup in the first
index; `nil` both when there is no index 0 and when the key is absent. -/
def RecordFile.Index (rf : RecordFile γ) (k : Value γ) : Option Nat :=
  match rf.Indexes 0 with
  | .nilIndex => none
  | .panicked => none
  | .found idx => idxGet idx k

end RecordFileOps

/-! ## Specification vocabulary

Definitions used only to state and prove properties of the embedding
above; they are not part of the source translation. -/

instance : Inhabited Field := ⟨⟨"", Kind.kString, ""⟩⟩

/-- Column numbers (counting from `i`) of the `index`-tagged fields, in
declaration order. -/
def indexedColsFrom : List Field → Nat → List Nat
  | [], _ => []
  | f :: fs, i =>
    if f.tag = "index" then i :: indexedColsFrom fs (i + 1)
    else indexedColsFrom fs (i + 1)

/-- Column numbers of the `index`-tagged fields, in declaration order. -/
def indexedCols (fields : List Field) : List Nat := indexedColsFrom fields 0

/-- The column indexed by slot `s` (in declaration order among the
`index`-tagged fields). -/
def colOf (fields : List Field) (s : Nat) : Nat := (indexedCols fields).getD s 0

section SpecVocab

variable {γ : Type} [DecidableEq γ]

/-- The association list an index slot holds for column `c` after the rows
producing the records `recs` (at positions `p`, `p + 1`, ...) have been
processed: entries of later records sit closer to the head. -/
def buildIdx : List (List (Value γ)) → Nat → Nat → Index γ
  | [], _, _ => []
  | r :: rs, c, p => buildIdx rs c (p + 1) ++ [(r.getD c .vUnset, p)]

end SpecVocab

/-- The numeric value of a digit string in base `b`. -/
def digitsVal (b : Nat) (cs : List Char) : Nat :=
  cs.foldl (fun n c => n * b + (digitVal c).getD 0) 0

/-- Concrete instantiation used by witnesses: the composite decoder that
always fails, over the trivial composite value domain. -/
def jdU : Field → String → Option Unit := fun _ _ => none

/-- A two-field schema (a string and an indexed 64-bit int), as `New`
derives from `struct { Name string; Age int "index" }`. -/
def schW : List Field := [⟨"Name", Kind.kString, ""⟩, ⟨"Age", Kind.kInt 64, "index"⟩]

/-- A `RecordFile` as returned by `New` on `schW`. -/
def rfW : RecordFile Unit := ⟨"", "", "", schW, [], []⟩

/-- `rfW` after `Read` has filled in the package default configuration. -/
def rfWD : RecordFile Unit := ⟨"~", "#", "!####!\n", schW, [], []⟩

/-- A loaded store over `schW`: one record with its index entry. -/
def rfR : RecordFile Unit :=
  ⟨"~", "#", "!####!\n", schW, [[.vStr "alice", .vInt 30]], [[(.vInt 30, 0)]]⟩

/-- A representative shape with an `index`-tagged array field. -/
def rfArr : RecordFile Unit := ⟨"", "", "", [⟨"A", Kind.kArray, "index"⟩], [], []⟩

/-- The example file content of the specification: a comment line, a header
row and two data rows, with default delimiters. -/
def contentW : String := "#ignored comment!####!\nName~Age!####!\nalice~30!####!\nbob~25"

/-- The store `Read` builds from `contentW` over `schW`. -/
def rfRes : RecordFile Unit :=
  ⟨"~", "#", "!####!\n", schW,
    [[.vStr "alice", .vInt 30], [.vStr "bob", .vInt 25]],
    [[(.vInt 25, 1), (.vInt 30, 0)]]⟩

/-- A two-field schema with an indexed 64-bit float column, as `New`
accepts it. -/
def schF : List Field := [⟨"Name", Kind.kString, ""⟩, ⟨"X", Kind.kFloat 64, "index"⟩]

/-- A fresh `RecordFile` over `schF`. -/
def rfF : RecordFile Unit := ⟨"", "", "", schF, [], []⟩

/-- One data row whose indexed float token is `nan`. -/
def contentNaN : String := "Name~X!####!\na~nan"

/-- The store `contentNaN` loads into: one record with a NaN key entry. -/
def rfFRes : RecordFile Unit :=
  ⟨"~", "#", "!####!\n", schF, [[.vStr "a", .vFloat .nan]], [[(.vFloat .nan, 0)]]⟩

/-- Two data rows whose indexed float tokens are both `nan`. -/
def contentNaN2 : String := "Name~X!####!\na~nan!####!\nb~nan"

/-- The store `contentNaN2` loads into: two records, two unretrievable
NaN entries in the one index. -/
def rfFRes2 : RecordFile Unit :=
  ⟨"~", "#", "!####!\n", schF,
    [[.vStr "a", .vFloat .nan], [.vStr "b", .vFloat .nan]],
    [[(.vFloat .nan, 1), (.vFloat .nan, 0)]]⟩

/-- The decimal digit characters. -/
def decDigits : List Char := ['0', '1', '2', '3', '4', '5', '6', '7', '8', '9']

/-- The octal digit characters. -/
def octDigits : List Char := ['0', '1', '2', '3', '4', '5', '6', '7']

/-- The hexadecimal digit characters. -/
def hexDigits : List Char :=
  ['a', 'b', 'c', 'd', 'e', 'f', 'A', 'B', 'C', 'D', 'E', 'F',
   '0', '1', '2', '3', '4', '5', '6', '7', '8', '9']

/-! ## Structural lemmas -/

section Lemmas

variable {γ : Type} [DecidableEq γ]

theorem applyDefaults_records (rf : RecordFile γ) :
    (applyDefaults rf).records = rf.records := rfl

theorem applyDefaults_indexes (rf : RecordFile γ) :
    (applyDefaults rf).indexes = rf.indexes := rfl

theorem applyDefaults_typeRecord (rf : RecordFile γ) :
    (applyDefaults rf).typeRecord = rf.typeRecord := rfl

/-- Processing a concatenation of row blocks: the second block is reached
only if the first fully succeeds, and row numbering continues. -/
theorem readRows_append (jdec : Field → String → Option γ) (fields : List Field)
    (xs ys : List (List String)) (n : Nat) (idxs : List (Index γ)) :
    readRows jdec fields (xs ++ ys) n idxs =
      match readRows jdec fields xs n idxs with
      | .error e => .error e
      | .ok (recs, idxs') =>
        match readRows jdec fields ys (n + xs.length) idxs' with
        | .error e => .error e
        | .ok (recs₂, idxs'') => .ok (recs ++ recs₂, idxs'') := by
  induction xs generalizing n idxs with
  | nil =>
    simp only [List.nil_append, readRows, List.length_nil, Nat.add_zero]
    cases readRows jdec fields ys n idxs with
    | error e => rfl
    | ok p => cases p with | mk a b => simp
  | cons row rest ih =>
    simp only [List.cons_append, readRows, List.length_cons]
    split
    · rfl
    · cases hf : readFields jdec n fields row 0 0 idxs with
      | error e => rfl
      | ok p =>
        cases p with
        | mk rec idxs1 =>
          have harith : n + (rest.length + 1) = n + 1 + rest.length := by omega
          simp only [List.append_eq]
          rw [harith, ih (n + 1) idxs1]
          cases hr : readRows jdec fields rest (n + 1) idxs1 with
          | error e => rfl
          | ok q =>
            cases q with
            | mk recs idxs2 =>
              cases hs : readRows jdec fields ys (n + 1 + rest.length) idxs2 with
              | error e => simp [hs]
              | ok r => cases r with | mk a b => simp [hs]

theorem headD_eq_getD (l : List α) (d : α) : l.headD d = l.getD 0 d := by
  cases l <;> rfl

theorem head_eq_getElem0 (l : List α) : l.head? = l[0]? := by
  cases l <;> simp

theorem getD_tail (l : List α) (j : Nat) (d : α) :
    l.tail.getD j d = l.getD (j + 1) d := by
  cases l <;> rfl

theorem getD_set_ne (l : List α) (i j : Nat) (a d : α) (h : i ≠ j) :
    (l.set i a).getD j d = l.getD j d := by
  induction l generalizing i j with
  | nil => simp
  | cons x xs ih =>
    cases i with
    | zero => cases j with
      | zero => exact absurd rfl h
      | succ j => simp [List.set]
    | succ i => cases j with
      | zero => simp [List.set]
      | succ j => simpa [List.set] using ih i j (by omega)

theorem getD_set_self (l : List α) (i : Nat) (a d : α) (h : i < l.length) :
    (l.set i a).getD i d = a := by
  induction l generalizing i with
  | nil => simp at h
  | cons x xs ih =>
    cases i with
    | zero => rfl
    | succ i => simpa [List.set] using ih i (by simpa using h)

theorem getD_map_add_one (l : List Nat) (t : Nat) (ht : t < l.length) :
    (l.map (· + 1)).getD t 0 = l.getD t 0 + 1 := by
  induction l generalizing t with
  | nil => simp at ht
  | cons x xs ih =>
    cases t with
    | zero => rfl
    | succ t => simpa using ih t (by simpa using ht)

theorem indexedColsFrom_shift (fs : List Field) (i : Nat) :
    indexedColsFrom fs (i + 1) = (indexedColsFrom fs i).map (· + 1) := by
  induction fs generalizing i with
  | nil => simp [indexedColsFrom]
  | cons f fs ih =>
    simp only [indexedColsFrom]
    split
    · simp [ih]
    · simp [ih]

theorem indexedColsFrom_length (fs : List Field) (i : Nat) :
    (indexedColsFrom fs i).length = (fs.filter fun f => f.tag = "index").length := by
  induction fs generalizing i with
  | nil => rfl
  | cons f fs ih =>
    simp only [indexedColsFrom, List.filter]
    by_cases h : f.tag = "index"
    · simp [h, ih]
    · simp [h, ih]

theorem indexedColsFrom_mem (fs : List Field) (i c : Nat)
    (h : c ∈ indexedColsFrom fs i) :
    i ≤ c ∧ c - i < fs.length ∧ (fs.getD (c - i) default).tag = "index" := by
  induction fs generalizing i with
  | nil => simp [indexedColsFrom] at h
  | cons f fs ih =>
    simp only [indexedColsFrom] at h
    by_cases htag : f.tag = "index"
    · rw [if_pos htag] at h
      rcases List.mem_cons.mp h with rfl | h
      · simpa using htag
      · obtain ⟨h1, h2, h3⟩ := ih (i + 1) h
        refine ⟨by omega, by simp; omega, ?_⟩
        have : c - i = (c - (i + 1)) + 1 := by omega
        rw [this]
        simpa using h3
    · rw [if_neg htag] at h
      obtain ⟨h1, h2, h3⟩ := ih (i + 1) h
      refine ⟨by omega, by simp; omega, ?_⟩
      have : c - i = (c - (i + 1)) + 1 := by omega
      rw [this]
      simpa using h3

theorem initIndexes_getD (fields : List Field) (s : Nat) :
    (initIndexes (γ := γ) fields).getD s [] = [] := by
  unfold initIndexes
  induction (fields.filter fun f => f.tag = "index") generalizing s with
  | nil => cases s <;> rfl
  | cons x xs ih => cases s with
    | zero => rfl
    | succ s => simpa using ih s

theorem initIndexes_length (fields : List Field) :
    (initIndexes (γ := γ) fields).length = (indexedCols fields).length := by
  simp [initIndexes, indexedCols, indexedColsFrom_length]

/-- The field-validation loop of `New` accepts a field list exactly when
every field has a valid kind and no `index`-tagged field has an
unindexable kind. -/
theorem checkFields_eq_none (fields : List Field) (i : Nat) :
    checkFields fields i = none ↔
      ∀ f ∈ fields, kindValid f.kind ∧ ¬ (f.tag = "index" ∧ kindUnindexable f.kind) := by
  induction fields generalizing i with
  | nil => simp [checkFields]
  | cons f fs ih =>
    simp only [checkFields]
    by_cases h1 : kindValid f.kind
    · by_cases h2 : f.tag = "index" ∧ kindUnindexable f.kind
      · simp [h1, h2]
      · rw [if_neg (not_not_intro h1), if_neg h2]
        simp only [ih, List.mem_cons]
        constructor
        · intro hall g hg
          rcases hg with rfl | hg
          · exact ⟨h1, h2⟩
          · exact hall g hg
        · intro hall g hg
          exact hall g (Or.inr hg)
    · simp [h1]

/-- Success characterization of the per-field loop: every token coerces to
the corresponding record value; each `index`-tagged field adds exactly one
entry `(value, n-1)` at the head of its slot (slots are assigned in
declaration order starting at `iIdx`), the inserted key being absent from
the slot beforehand; all other slots are untouched. -/
theorem readFields_ok (jdec : Field → String → Option γ) (n : Nat) :
    ∀ (fs : List Field) (toks : List String) (i iIdx : Nat) (idxs : List (Index γ))
      (vs : List (Value γ)) (idxs' : List (Index γ)),
      readFields jdec n fs toks i iIdx idxs = Except.ok (vs, idxs') →
      iIdx + (indexedColsFrom fs 0).length ≤ idxs.length →
      vs.length = fs.length ∧
      idxs'.length = idxs.length ∧
      (∀ j, j < fs.length →
        coerceField jdec (fs.getD j default) (toks.getD j "") =
          Except.ok (vs.getD j .vUnset)) ∧
      (∀ s, s < idxs.length → (s < iIdx ∨ iIdx + (indexedColsFrom fs 0).length ≤ s) →
        idxs'.getD s [] = idxs.getD s []) ∧
      (∀ t, t < (indexedColsFrom fs 0).length →
        idxs'.getD (iIdx + t) [] =
          (vs.getD ((indexedColsFrom fs 0).getD t 0) .vUnset, n - 1) ::
            idxs.getD (iIdx + t) [] ∧
        idxGet (idxs.getD (iIdx + t) [])
          (vs.getD ((indexedColsFrom fs 0).getD t 0) .vUnset) = none) := by
  intro fs
  induction fs with
  | nil =>
    intro toks i iIdx idxs vs idxs' h hlen
    simp only [readFields] at h
    cases h
    refine ⟨rfl, rfl, ?_, ?_, ?_⟩
    · intro j hj
      exact absurd hj (Nat.not_lt_zero j)
    · intro s _ _
      rfl
    · intro t ht
      simp [indexedColsFrom] at ht
  | cons f fs ih =>
    intro toks i iIdx idxs vs idxs' h hlen
    simp only [readFields] at h
    split at h
    · cases h
    · rename_i v hc
      by_cases htag : f.tag = "index"
      · rw [if_pos htag] at h
        have hcols : indexedColsFrom (f :: fs) 0 =
            0 :: (indexedColsFrom fs 0).map (· + 1) := by
          simp [indexedColsFrom, htag, indexedColsFrom_shift]
        rw [hcols] at hlen
        simp only [List.length_cons, List.length_map] at hlen
        have hiIdx : iIdx < idxs.length := by omega
        split at h
        · cases h
        · rename_i hg
          split at h
          · cases h
          · rename_i vs'' idxs'' hrec
            cases h
            set idxs₁ := idxs.set iIdx ((v, n - 1) :: idxs.getD iIdx []) with hidxs₁
            have hlen₁ : iIdx + 1 + (indexedColsFrom fs 0).length ≤ idxs₁.length := by
              simp only [hidxs₁, List.length_set]
              omega
            obtain ⟨hL, hL2, hco, hunch, hidx⟩ :=
              ih toks.tail (i + 1) (iIdx + 1) idxs₁ vs'' idxs' hrec hlen₁
            have hfresh : idxGet (idxs.getD iIdx []) v = none := by
              cases ho : idxGet (idxs.getD iIdx []) v with
              | none => rfl
              | some w => rw [ho] at hg; simp at hg
            refine ⟨by simp [hL], ?_, ?_, ?_, ?_⟩
            · rw [hL2]
              simp [hidxs₁]
            · intro j hj
              cases j with
              | zero =>
                rw [List.getD_cons_zero, List.getD_cons_zero, ← headD_eq_getD]
                exact hc
              | succ j =>
                rw [List.getD_cons_succ, List.getD_cons_succ, ← getD_tail]
                exact hco j (by simpa using hj)
            · intro s hs hside
              rw [hcols] at hside
              simp only [List.length_cons, List.length_map] at hside
              have hs₁ : s < idxs₁.length := by simp [hidxs₁, hs]
              have hne : iIdx ≠ s := by omega
              have h1 : idxs'.getD s [] = idxs₁.getD s [] := by
                apply hunch s hs₁
                omega
              rw [h1, hidxs₁, getD_set_ne _ _ _ _ _ hne]
            · intro t ht
              rw [hcols] at ht ⊢
              simp only [List.length_cons, List.length_map] at ht
              cases t with
              | zero =>
                constructor
                · have h1 : idxs'.getD (iIdx + 0) [] = idxs₁.getD (iIdx + 0) [] := by
                    apply hunch (iIdx + 0) (by simp [hidxs₁]; omega)
                    omega
                  rw [h1, hidxs₁]
                  simp only [Nat.add_zero]
                  rw [getD_set_self _ _ _ _ hiIdx]
                  rfl
                · simpa using hfresh
              | succ t' =>
                have ht' : t' < (indexedColsFrom fs 0).length := by omega
                obtain ⟨he1, he2⟩ := hidx t' ht'
                have hcol : ((0 : Nat) :: (indexedColsFrom fs 0).map (· + 1)).getD (t' + 1) 0 =
                    (indexedColsFrom fs 0).getD t' 0 + 1 := by
                  simpa using getD_map_add_one (indexedColsFrom fs 0) t' ht'
                have harith : iIdx + (t' + 1) = iIdx + 1 + t' := by omega
                have hset : idxs₁.getD (iIdx + 1 + t') [] = idxs.getD (iIdx + 1 + t') [] := by
                  rw [hidxs₁]
                  exact getD_set_ne _ _ _ _ _ (by omega)
                constructor
                · rw [hcol, harith, List.getD_cons_succ, he1, hset]
                · rw [hcol, harith, List.getD_cons_succ]
                  rw [hset] at he2
                  exact he2
      · rw [if_neg htag] at h
        have hcols : indexedColsFrom (f :: fs) 0 =
            (indexedColsFrom fs 0).map (· + 1) := by
          simp [indexedColsFrom, htag, indexedColsFrom_shift]
        rw [hcols] at hlen
        simp only [List.length_map] at hlen
        split at h
        · cases h
        · rename_i vs'' idxs'' hrec
          cases h
          obtain ⟨hL, hL2, hco, hunch, hidx⟩ :=
            ih toks.tail (i + 1) iIdx idxs vs'' idxs' hrec hlen
          refine ⟨by simp [hL], hL2, ?_, ?_, ?_⟩
          · intro j hj
            cases j with
            | zero =>
              rw [List.getD_cons_zero, List.getD_cons_zero, ← headD_eq_getD]
              exact hc
            | succ j =>
              rw [List.getD_cons_succ, List.getD_cons_succ, ← getD_tail]
              exact hco j (by simpa using hj)
          · intro s hs hside
            rw [hcols] at hside
            simp only [List.length_map] at hside
            exact hunch s hs (by omega)
          · intro t ht
            rw [hcols] at ht ⊢
            simp only [List.length_map] at ht
            obtain ⟨he1, he2⟩ := hidx t ht
            have hcol : ((indexedColsFrom fs 0).map (· + 1)).getD t 0 =
                (indexedColsFrom fs 0).getD t 0 + 1 := getD_map_add_one _ t ht
            constructor
            · rw [hcol, List.getD_cons_succ, he1]
            · rw [hcol, List.getD_cons_succ]
              exact he2

theorem goKeyEq_self (v : Value γ) : goKeyEq v v = !(isNaNKey v) := by
  simp [goKeyEq]

theorem goKeyEq_symm (a b : Value γ) : goKeyEq a b = goKeyEq b a := by
  by_cases h : a = b
  · subst h
    rfl
  · simp [goKeyEq, h, Ne.symm h]

theorem goKeyEq_eq (a b : Value γ) (h : goKeyEq a b = true) :
    a = b ∧ isNaNKey a = false := by
  simp only [goKeyEq, Bool.and_eq_true, Bool.not_eq_true', decide_eq_true_eq] at h
  exact ⟨h.2, h.1⟩

theorem idxGet_nan (idx : Index γ) (k : Value γ) (h : isNaNKey k = true) :
    idxGet idx k = none := by
  induction idx with
  | nil => rfl
  | cons kv rest ih =>
    simp only [idxGet]
    rw [if_neg ?_, ih]
    intro hk
    obtain ⟨heq, hnn⟩ := goKeyEq_eq _ _ hk
    rw [heq, h] at hnn
    cases hnn

theorem idxGet_append (a b : Index γ) (k : Value γ) :
    idxGet (a ++ b) k =
      match idxGet a k with
      | some v => some v
      | none => idxGet b k := by
  induction a with
  | nil => rfl
  | cons kv rest ih =>
    simp only [List.cons_append, idxGet]
    by_cases hk : goKeyEq kv.1 k = true
    · simp [hk]
    · simp [hk, ih]

theorem idxGet_cons_eq_none (kv : Value γ × Nat) (rest : Index γ) (k : Value γ)
    (h : idxGet (kv :: rest) k = none) :
    goKeyEq kv.1 k = false ∧ idxGet rest k = none := by
  by_cases hk : goKeyEq kv.1 k = true
  · simp [idxGet, hk] at h
  · simp only [idxGet, if_neg hk] at h
    exact ⟨by simpa using hk, h⟩

theorem idxGet_buildIdx_none (recs : List (List (Value γ))) (c b : Nat) (k : Value γ)
    (h : ∀ m, m < recs.length →
      goKeyEq ((recs.getD m []).getD c .vUnset) k = false) :
    idxGet (buildIdx recs c b) k = none := by
  induction recs generalizing b with
  | nil => rfl
  | cons r rs ih =>
    simp only [buildIdx]
    rw [idxGet_append]
    rw [ih (b + 1) (fun m hm => by
      simpa using h (m + 1) (by simpa using hm))]
    have h0 := h 0 (by simp)
    rw [List.getD_cons_zero] at h0
    show idxGet [(r.getD c .vUnset, b)] k = none
    simp only [idxGet]
    rw [if_neg (by rw [h0]; simp)]

theorem idxGet_buildIdx_self (recs : List (List (Value γ))) (c b p : Nat)
    (hp : p < recs.length)
    (hnn : isNaNKey ((recs.getD p []).getD c .vUnset) = false)
    (hfr : ∀ m, m < recs.length → m ≠ p →
      goKeyEq ((recs.getD m []).getD c .vUnset)
        ((recs.getD p []).getD c .vUnset) = false) :
    idxGet (buildIdx recs c b) ((recs.getD p []).getD c .vUnset) = some (b + p) := by
  induction recs generalizing b p with
  | nil => simp at hp
  | cons r rs ih =>
    cases p with
    | zero =>
      simp only [List.getD_cons_zero] at hnn hfr ⊢
      have hnone : idxGet (buildIdx rs c (b + 1)) (r.getD c .vUnset) = none := by
        apply idxGet_buildIdx_none
        intro m hm
        simpa using hfr (m + 1) (by simpa using hm) (by omega)
      simp only [buildIdx, List.getD_cons_zero]
      rw [idxGet_append, hnone]
      simp only [idxGet]
      rw [if_pos (by rw [goKeyEq_self, hnn]; rfl)]
      simp
    | succ p' =>
      have hp' : p' < rs.length := by simpa using hp
      simp only [List.getD_cons_succ] at hnn
      have hfr' : ∀ m, m < rs.length → m ≠ p' →
          goKeyEq ((rs.getD m []).getD c .vUnset)
            ((rs.getD p' []).getD c .vUnset) = false := by
        intro m hm hne
        have := hfr (m + 1) (by simpa using hm) (by omega)
        simpa using this
      have hrec := ih (b + 1) p' hp' hnn hfr'
      simp only [buildIdx, List.getD_cons_succ]
      rw [idxGet_append, hrec]
      simp only []
      congr 1
      omega

/-- Success characterization of the data-row loop: every retained data row
has exactly `fields.length` tokens, every token coerces to the
corresponding stored record value, each index slot holds exactly the
entries of the processed records for its column (stacked on whatever the
slot held before), every inserted key is fresh with respect to the initial
indexes, and coerced values in one indexed column are pairwise distinct
across records. -/
theorem readRows_ok (jdec : Field → String → Option γ) (fields : List Field) :
    ∀ (rows : List (List String)) (n : Nat) (idxs : List (Index γ))
      (recs : List (List (Value γ))) (idxs' : List (Index γ)),
      readRows jdec fields rows n idxs = Except.ok (recs, idxs') →
      (indexedCols fields).length ≤ idxs.length →
      1 ≤ n →
      recs.length = rows.length ∧
      idxs'.length = idxs.length ∧
      (∀ m, m < rows.length →
        (rows.getD m []).length = fields.length ∧
        (recs.getD m []).length = fields.length ∧
        (∀ j, j < fields.length →
          coerceField jdec (fields.getD j default) ((rows.getD m []).getD j "") =
            Except.ok ((recs.getD m []).getD j .vUnset))) ∧
      (∀ s, s < (indexedCols fields).length →
        idxs'.getD s [] = buildIdx recs (colOf fields s) (n - 1) ++ idxs.getD s []) ∧
      (∀ s, s < (indexedCols fields).length → ∀ p, p < recs.length →
        idxGet (idxs.getD s []) ((recs.getD p []).getD (colOf fields s) .vUnset) = none) ∧
      (∀ s, s < (indexedCols fields).length → ∀ p q, p < recs.length → q < recs.length →
        goKeyEq ((recs.getD p []).getD (colOf fields s) .vUnset)
          ((recs.getD q []).getD (colOf fields s) .vUnset) = true → p = q) := by
  intro rows
  induction rows with
  | nil =>
    intro n idxs recs idxs' h hle hn
    simp only [readRows] at h
    cases h
    refine ⟨rfl, rfl, ?_, ?_, ?_, ?_⟩
    · intro m hm
      exact absurd hm (Nat.not_lt_zero m)
    · intro s hs
      simp [buildIdx]
    · intro s hs p hp
      exact absurd hp (Nat.not_lt_zero p)
    · intro s hs p q hp hq
      exact absurd hp (Nat.not_lt_zero p)
  | cons row rest ih =>
    intro n idxs recs idxs' h hle hn
    simp only [readRows] at h
    split at h
    · cases h
    · rename_i hlenrow
      split at h
      · cases h
      · rename_i rec idxs₁ hrf
        split at h
        · cases h
        · rename_i recsB idxsB hrr
          cases h
          have hlenF : (0 : Nat) + (indexedColsFrom fields 0).length ≤ idxs.length := by
            simpa [indexedCols] using hle
          obtain ⟨hL, hL2, hco, hunch, hidx⟩ :=
            readFields_ok jdec n fields row 0 0 idxs rec idxs₁ hrf hlenF
          have hle₁ : (indexedCols fields).length ≤ idxs₁.length := by
            rw [hL2]
            exact hle
          obtain ⟨iL, iL2, iR2, iR4, iR5, iR6⟩ :=
            ih (n + 1) idxs₁ recsB idxs' hrr hle₁ (by omega)
          have hrow : row.length = fields.length := by
            by_contra hne
            exact hlenrow hne
          have hslot : ∀ s, s < (indexedCols fields).length →
              idxs₁.getD s [] =
                ((rec.getD (colOf fields s) .vUnset, n - 1) : Value γ × Nat) ::
                  idxs.getD s [] := by
            intro s hs
            have := (hidx s (by simpa [indexedCols] using hs)).1
            simpa [indexedCols, colOf] using this
          have hfresh0 : ∀ s, s < (indexedCols fields).length →
              idxGet (idxs.getD s []) (rec.getD (colOf fields s) .vUnset) = none := by
            intro s hs
            have := (hidx s (by simpa [indexedCols] using hs)).2
            simpa [indexedCols, colOf] using this
          refine ⟨by simp [iL], by rw [iL2, hL2], ?_, ?_, ?_, ?_⟩
          · intro m hm
            cases m with
            | zero =>
              refine ⟨by simpa using hrow, by simpa using hL, ?_⟩
              intro j hj
              simpa using hco j hj
            | succ m =>
              have := iR2 m (by simpa using hm)
              simpa using this
          · intro s hs
            have h4 := iR4 s hs
            rw [hslot s hs] at h4
            rw [h4]
            simp only [Nat.add_sub_cancel]
            have hb : buildIdx (rec :: recsB) (colOf fields s) (n - 1) =
                buildIdx recsB (colOf fields s) (n - 1 + 1) ++
                  [(rec.getD (colOf fields s) .vUnset, n - 1)] := rfl
            rw [hb]
            have : n - 1 + 1 = n := by omega
            rw [this, List.append_assoc]
            rfl
          · intro s hs p hp
            cases p with
            | zero =>
              simpa using hfresh0 s hs
            | succ p =>
              have h5 := iR5 s hs p (by simpa using hp)
              rw [hslot s hs] at h5
              have := (idxGet_cons_eq_none _ _ _ h5).2
              simpa using this
          · intro s hs p q hp hq heq
            cases p with
            | zero =>
              cases q with
              | zero => rfl
              | succ q =>
                exfalso
                have h5 := iR5 s hs q (by simpa using hq)
                rw [hslot s hs] at h5
                have hne := (idxGet_cons_eq_none _ _ _ h5).1
                simp only [List.getD_cons_zero, List.getD_cons_succ] at heq
                rw [heq] at hne
                cases hne
            | succ p =>
              cases q with
              | zero =>
                exfalso
                have h5 := iR5 s hs p (by simpa using hp)
                rw [hslot s hs] at h5
                have hne := (idxGet_cons_eq_none _ _ _ h5).1
                simp only [List.getD_cons_zero, List.getD_cons_succ] at heq
                rw [goKeyEq_symm] at heq
                rw [heq] at hne
                cases hne
              | succ q =>
                have := iR6 s hs p q (by simpa using hp) (by simpa using hq)
                  (by simpa using heq)
                omega

theorem getD_mem (l : List α) (t : Nat) (d : α) (h : t < l.length) :
    l.getD t d ∈ l := by
  induction l generalizing t with
  | nil => simp at h
  | cons x xs ih =>
    cases t with
    | zero => simp
    | succ t =>
      rw [List.getD_cons_succ]
      exact List.mem_cons_of_mem x (ih t (by simpa using h))

theorem getD_take (l : List α) (k m : Nat) (d : α) (h : m < k) :
    (l.take k).getD m d = l.getD m d := by
  induction l generalizing k m with
  | nil => simp
  | cons x xs ih =>
    cases k with
    | zero => omega
    | succ k =>
      cases m with
      | zero => rfl
      | succ m => simpa using ih k m (by omega)

theorem idxGet_buildIdx_isSome (recs : List (List (Value γ))) (c b : Nat) (v : Value γ)
    (h : (idxGet (buildIdx recs c b) v).isSome = true) :
    ∃ m, m < recs.length ∧ goKeyEq ((recs.getD m []).getD c .vUnset) v = true := by
  by_contra hno
  push_neg at hno
  simp only [Bool.not_eq_true] at hno
  rw [idxGet_buildIdx_none recs c b v hno] at h
  simp at h

/-- Error characterization of the per-field loop: a `parseField` error
names a column whose token fails to coerce; a `duplicateIndex` error names
an `index`-tagged column whose coerced value was already a key of that
column's slot when the row started (earlier fields of the same row only
touch strictly earlier slots). -/
theorem readFields_err (jdec : Field → String → Option γ) (n : Nat) :
    ∀ (fs : List Field) (toks : List String) (i iIdx : Nat) (idxs : List (Index γ))
      (e : ReadErr),
      readFields jdec n fs toks i iIdx idxs = Except.error e →
      ∃ j, j < fs.length ∧
        ((∃ ce, e = ReadErr.parseField n (i + j) ce ∧
            coerceField jdec (fs.getD j default) (toks.getD j "") = Except.error ce) ∨
          (e = ReadErr.duplicateIndex n (i + j) ∧
            ∃ t, t < (indexedColsFrom fs 0).length ∧
              (indexedColsFrom fs 0).getD t 0 = j ∧
              ∃ v, coerceField jdec (fs.getD j default) (toks.getD j "") = Except.ok v ∧
                (idxGet (idxs.getD (iIdx + t) []) v).isSome = true)) := by
  intro fs
  induction fs with
  | nil =>
    intro toks i iIdx idxs e h
    simp only [readFields] at h
    cases h
  | cons f fs ih =>
    intro toks i iIdx idxs e h
    simp only [readFields] at h
    split at h
    · rename_i e' hc
      cases h
      refine ⟨0, by simp, Or.inl ⟨e', by simp, ?_⟩⟩
      simpa [headD_eq_getD, head_eq_getElem0] using hc
    · rename_i v hc
      by_cases htag : f.tag = "index"
      · rw [if_pos htag] at h
        have hcols : indexedColsFrom (f :: fs) 0 =
            0 :: (indexedColsFrom fs 0).map (· + 1) := by
          simp [indexedColsFrom, htag, indexedColsFrom_shift]
        split at h
        · rename_i hdup
          cases h
          refine ⟨0, by simp, Or.inr ⟨by simp, 0, ?_, ?_, v, ?_, ?_⟩⟩
          · rw [hcols]
            simp
          · rw [hcols]
            rfl
          · simpa [headD_eq_getD, head_eq_getElem0] using hc
          · simpa using hdup
        · rename_i hnodup
          split at h
          · rename_i e' hrec
            cases h
            obtain ⟨j, hj, hcase⟩ :=
              ih toks.tail (i + 1) (iIdx + 1) (idxs.set iIdx
                ((v, n - 1) :: idxs.getD iIdx [])) e hrec
            refine ⟨j + 1, by simpa using hj, ?_⟩
            rcases hcase with ⟨ce, hce, hco⟩ | ⟨hdz, t, ht, hcol, v', hv', hsome⟩
            · left
              refine ⟨ce, ?_, ?_⟩
              · rw [hce]
                congr 1
                omega
              · simpa [getD_tail, List.getD_cons_succ] using hco
            · right
              constructor
              · rw [hdz]
                congr 1
                omega
              · refine ⟨t + 1, ?_, ?_, v', ?_, ?_⟩
                · rw [hcols]
                  simpa using ht
                · rw [hcols]
                  rw [List.getD_cons_succ, getD_map_add_one _ t ht, hcol]
                · simpa [getD_tail, List.getD_cons_succ] using hv'
                · have harith : iIdx + (t + 1) = iIdx + 1 + t := by omega
                  rw [harith]
                  rwa [getD_set_ne _ _ _ _ _ (by omega)] at hsome
          · cases h
      · rw [if_neg htag] at h
        have hcols : indexedColsFrom (f :: fs) 0 =
            (indexedColsFrom fs 0).map (· + 1) := by
          simp [indexedColsFrom, htag, indexedColsFrom_shift]
        split at h
        · rename_i e' hrec
          cases h
          obtain ⟨j, hj, hcase⟩ := ih toks.tail (i + 1) iIdx idxs e hrec
          refine ⟨j + 1, by simpa using hj, ?_⟩
          rcases hcase with ⟨ce, hce, hco⟩ | ⟨hdz, t, ht, hcol, v', hv', hsome⟩
          · left
            refine ⟨ce, ?_, ?_⟩
            · rw [hce]
              congr 1
              omega
            · simpa [getD_tail, List.getD_cons_succ] using hco
          · right
            constructor
            · rw [hdz]
              congr 1
              omega
            · refine ⟨t, ?_, ?_, v', ?_, ?_⟩
              · rw [hcols]
                simpa using ht
              · rw [hcols]
                rw [getD_map_add_one _ t ht, hcol]
              · simpa [getD_tail, List.getD_cons_succ] using hv'
              · exact hsome
        · cases h

/-- Error localization of the data-row loop: an error on `rows` identifies
a first failing row `k` such that the rows before it process successfully,
and row `k` either has the wrong token count (producing exactly the
`fieldCountMismatch` error) or fails inside the per-field loop. -/
theorem readRows_err (jdec : Field → String → Option γ) (fields : List Field) :
    ∀ (rows : List (List String)) (n₀ : Nat) (idxs : List (Index γ)) (e : ReadErr),
      readRows jdec fields rows n₀ idxs = Except.error e →
      ∃ k, k < rows.length ∧
        ∃ recs idxs₁,
          readRows jdec fields (rows.take k) n₀ idxs = Except.ok (recs, idxs₁) ∧
          (((rows.getD k []).length ≠ fields.length ∧
              e = ReadErr.fieldCountMismatch (n₀ + k) (rows.getD k []).length
                fields.length) ∨
            ((rows.getD k []).length = fields.length ∧
              readFields jdec (n₀ + k) fields (rows.getD k []) 0 0 idxs₁ =
                Except.error e)) := by
  intro rows
  induction rows with
  | nil =>
    intro n₀ idxs e h
    simp only [readRows] at h
    cases h
  | cons row rest ih =>
    intro n₀ idxs e h
    simp only [readRows] at h
    split at h
    · rename_i hlen
      cases h
      exact ⟨0, by simp, [], idxs, by simp [readRows],
        Or.inl ⟨by simpa using hlen, by simp⟩⟩
    · rename_i hlen
      have hlen' : row.length = fields.length := by
        by_contra hne
        exact hlen hne
      split at h
      · rename_i e' hrf
        cases h
        exact ⟨0, by simp, [], idxs, by simp [readRows],
          Or.inr ⟨by simpa using hlen', by simpa using hrf⟩⟩
      · rename_i rec idxs₁ hrf
        split at h
        · rename_i e' hrr
          cases h
          obtain ⟨k, hk, recs2, idxs2, hpre, hcase⟩ := ih (n₀ + 1) idxs₁ e hrr
          refine ⟨k + 1, by simpa using hk, rec :: recs2, idxs2, ?_, ?_⟩
          · simp [List.take_succ_cons, readRows, hlen', hrf, hpre]
          · rcases hcase with ⟨h1, h2⟩ | ⟨h1, h2⟩
            · left
              refine ⟨by simpa using h1, ?_⟩
              rw [h2, List.getD_cons_succ]
              congr 1
              omega
            · right
              refine ⟨by simpa using h1, ?_⟩
              rw [List.getD_cons_succ]
              have harith : n₀ + (k + 1) = n₀ + 1 + k := by omega
              rw [harith]
              exact h2
        · cases h

theorem decDigit_val {c : Char} (hc : c ∈ decDigits) :
    ∃ d, digitVal c = some d ∧ d < 10 := by
  fin_cases hc <;> exact ⟨_, rfl, by decide⟩

theorem octDigit_val {c : Char} (hc : c ∈ octDigits) :
    ∃ d, digitVal c = some d ∧ d < 8 := by
  fin_cases hc <;> exact ⟨_, rfl, by decide⟩

theorem hexDigit_val {c : Char} (hc : c ∈ hexDigits) :
    ∃ d, digitVal c = some d ∧ d < 16 := by
  fin_cases hc <;> exact ⟨_, rfl, by decide⟩

theorem octDigit_no_marker {c : Char} (hc : c ∈ octDigits) :
    lowerC c ≠ 'b' ∧ lowerC c ≠ 'o' ∧ lowerC c ≠ 'x' := by
  fin_cases hc <;> exact ⟨by decide, by decide, by decide⟩

theorem decDigit_not_sign {c : Char} (hc : c ∈ decDigits) :
    c ≠ '+' ∧ c ≠ '-' := by
  fin_cases hc <;> exact ⟨by decide, by decide⟩

theorem foldl_digits_le (b : Nat) (hb : 1 ≤ b) (cs : List Char) (n : Nat) :
    n ≤ cs.foldl (fun m c => m * b + (digitVal c).getD 0) n := by
  induction cs generalizing n with
  | nil => exact le_refl n
  | cons c cs ih =>
    rw [List.foldl_cons]
    refine le_trans ?_ (ih (n * b + (digitVal c).getD 0))
    have h1 : n * 1 ≤ n * b := Nat.mul_le_mul_left n hb
    omega

/-- The digit loop on a list of valid digits either accumulates the whole
base-`b` value or reports a range error, depending only on whether the
final value fits `maxVal` (intermediate values are monotone). -/
theorem parseUintLoop_digits (base0 : Bool) (b maxVal : Nat) (hb : 1 ≤ b) :
    ∀ (cs : List Char) (n : Nat) (u : Bool),
      n ≤ maxVal →
      (∀ c ∈ cs, ∃ d, digitVal c = some d ∧ d < b) →
      parseUintLoop base0 b maxVal cs n u =
        if cs.foldl (fun m c => m * b + (digitVal c).getD 0) n ≤ maxVal then
          Except.ok (cs.foldl (fun m c => m * b + (digitVal c).getD 0) n, u)
        else Except.error NumErr.rangeErr := by
  intro cs
  induction cs with
  | nil =>
    intro n u hn hd
    simp only [parseUintLoop, List.foldl_nil]
    rw [if_pos hn]
  | cons c cs ih =>
    intro n u hn hd
    obtain ⟨d, hdv, hdb⟩ := hd c (by simp)
    have hcne : ¬ (c = '_' ∧ base0 = true) := by
      rintro ⟨rfl, -⟩
      rw [show digitVal '_' = none from by decide] at hdv
      cases hdv
    have hstep : (digitVal c).getD 0 = d := by rw [hdv]; rfl
    simp only [parseUintLoop, List.foldl_cons, hstep]
    rw [if_neg hcne, hdv]
    simp only []
    rw [if_neg (by omega)]
    by_cases hover : maxVal < n * b + d
    · rw [if_pos hover]
      have hmono := foldl_digits_le b hb cs (n * b + d)
      rw [if_neg (by omega)]
    · rw [if_neg hover]
      exact ih (n * b + d) u (by omega)
        (fun c' hc' => hd c' (List.mem_cons_of_mem c hc'))

theorem parseUintLoop_append (base0 : Bool) (b maxVal : Nat) (xs ys : List Char) :
    ∀ (n : Nat) (u : Bool),
      parseUintLoop base0 b maxVal (xs ++ ys) n u =
        match parseUintLoop base0 b maxVal xs n u with
        | Except.ok p => parseUintLoop base0 b maxVal ys p.1 p.2
        | Except.error e => Except.error e := by
  induction xs with
  | nil =>
    intro n u
    simp [parseUintLoop]
  | cons c cs ih =>
    intro n u
    simp only [List.cons_append, parseUintLoop]
    split
    · exact ih _ _
    · split
      · rfl
      · split
        · rfl
        · split
          · rfl
          · exact ih _ _

theorem toList_mk (l : List Char) : (String.mk l).toList = l := rfl

/-- The digit loop fails (with a syntax or range error) whenever the input
contains a character that is not a skipped underscore and not a digit of
the base. -/
theorem parseUintLoop_err_of_bad (base0 : Bool) (b maxVal : Nat) :
    ∀ (cs : List Char) (n : Nat) (u : Bool),
      (∃ c ∈ cs, ¬ (c = '_' ∧ base0 = true) ∧ ∀ d, digitVal c = some d → b ≤ d) →
      ∃ e, parseUintLoop base0 b maxVal cs n u = Except.error e := by
  intro cs
  induction cs with
  | nil =>
    rintro n u ⟨c, hc, -⟩
    cases hc
  | cons c0 cs ih =>
    rintro n u ⟨c, hc, hcu, hcd⟩
    simp only [parseUintLoop]
    by_cases h1 : c0 = '_' ∧ base0 = true
    · rw [if_pos h1]
      apply ih
      rcases List.mem_cons.mp hc with rfl | hmem
      · exact absurd h1 hcu
      · exact ⟨c, hmem, hcu, hcd⟩
    · rw [if_neg h1]
      cases hdv : digitVal c0 with
      | none => exact ⟨.syntaxErr, rfl⟩
      | some d =>
        simp only []
        by_cases hdb : b ≤ d
        · exact ⟨.syntaxErr, by rw [if_pos hdb]⟩
        · rw [if_neg hdb]
          by_cases hov : maxVal < n * b + d
          · exact ⟨.rangeErr, by rw [if_pos hov]⟩
          · rw [if_neg hov]
            apply ih
            rcases List.mem_cons.mp hc with rfl | hmem
            · exact absurd (hcd d hdv) hdb
            · exact ⟨c, hmem, hcu, hcd⟩

/-- `ParseUint` with base 0 on a plain decimal literal (a leading decimal
digit other than `0`): the decimal value of the digits, range-checked
against the field's bit width. -/
theorem parseUint_decimal (c0 : Char) (rest : List Char) (w : Nat)
    (hd : ∀ c ∈ c0 :: rest, c ∈ decDigits) (h0 : c0 ≠ '0') :
    parseUint (String.mk (c0 :: rest)) 0 w =
      if digitsVal 10 (c0 :: rest) ≤ 2 ^ (if w = 0 then 64 else w) - 1 then
        Except.ok (digitsVal 10 (c0 :: rest))
      else Except.error NumErr.rangeErr := by
  have hdig : ∀ c ∈ c0 :: rest, ∃ d, digitVal c = some d ∧ d < 10 :=
    fun c hc => decDigit_val (hd c hc)
  have hmk : ¬ (String.mk (c0 :: rest) = "") := fun h => by cases congrArg String.data h
  unfold parseUint
  rw [if_neg hmk]
  simp only [toList_mk, digitsVal]
  rcases rest with _ | ⟨c1, rest1⟩ <;> [skip; rcases rest1 with _ | ⟨c2, rest2⟩] <;>
    · simp only []
      rw [if_neg (by decide), if_neg h0]
      set W := if w = 0 then 64 else w with hW
      rw [parseUintLoop_digits _ 10 _ (by norm_num) _ 0 false (Nat.zero_le _) hdig]
      split_ifs with hle
      · simp only []
        rw [if_neg (by simp)]
      · rfl

/-- `ParseUint` with base 0 on a `0x`-prefixed hexadecimal literal: the
hexadecimal value of the digits, range-checked. -/
theorem parseUint_hex (d0 : Char) (ds : List Char) (w : Nat)
    (hd : ∀ c ∈ d0 :: ds, c ∈ hexDigits) :
    parseUint (String.mk ('0' :: 'x' :: d0 :: ds)) 0 w =
      if digitsVal 16 (d0 :: ds) ≤ 2 ^ (if w = 0 then 64 else w) - 1 then
        Except.ok (digitsVal 16 (d0 :: ds))
      else Except.error NumErr.rangeErr := by
  have hdig : ∀ c ∈ d0 :: ds, ∃ d, digitVal c = some d ∧ d < 16 :=
    fun c hc => hexDigit_val (hd c hc)
  have hmk : ¬ (String.mk ('0' :: 'x' :: d0 :: ds) = "") :=
    fun h => by cases congrArg String.data h
  unfold parseUint
  rw [if_neg hmk]
  simp only [toList_mk, digitsVal]
  rw [if_pos (show True from trivial), if_neg (show ¬ (lowerC 'x' = 'b') from by decide),
    if_neg (show ¬ (lowerC 'x' = 'o') from by decide),
    if_pos (show lowerC 'x' = 'x' from by decide)]
  rw [if_neg (by decide)]
  set W := if w = 0 then 64 else w with hW
  rw [parseUintLoop_digits _ 16 _ (by norm_num) _ 0 false (Nat.zero_le _) hdig]
  split_ifs with hle
  · simp only []
    rw [if_neg (by simp)]
  · rfl

/-- `ParseUint` with base 0 on a `0`-prefixed octal literal: the octal
value of the digits after the leading `0`, range-checked. -/
theorem parseUint_octal (d0 : Char) (ds : List Char) (w : Nat)
    (hd : ∀ c ∈ d0 :: ds, c ∈ octDigits) :
    parseUint (String.mk ('0' :: d0 :: ds)) 0 w =
      if digitsVal 8 (d0 :: ds) ≤ 2 ^ (if w = 0 then 64 else w) - 1 then
        Except.ok (digitsVal 8 (d0 :: ds))
      else Except.error NumErr.rangeErr := by
  have hdig : ∀ c ∈ d0 :: ds, ∃ d, digitVal c = some d ∧ d < 8 :=
    fun c hc => octDigit_val (hd c hc)
  have hmk : ¬ (String.mk ('0' :: d0 :: ds) = "") :=
    fun h => by cases congrArg String.data h
  obtain ⟨hb, ho, hx⟩ := octDigit_no_marker (hd d0 (by simp))
  unfold parseUint
  rw [if_neg hmk]
  simp only [toList_mk, digitsVal]
  rcases ds with _ | ⟨d1, ds1⟩
  · simp only []
    rw [if_pos (show True from trivial)]
    rw [if_neg (by decide)]
    set W := if w = 0 then 64 else w with hW
    rw [parseUintLoop_digits _ 8 _ (by norm_num) _ 0 false (Nat.zero_le _) hdig]
    split_ifs with hle
    · simp only []
      rw [if_neg (by simp)]
    · rfl
  · simp only []
    rw [if_pos (show True from trivial), if_neg hb, if_neg ho, if_neg hx]
    rw [if_neg (by decide)]
    set W := if w = 0 then 64 else w with hW
    rw [parseUintLoop_digits _ 8 _ (by norm_num) _ 0 false (Nat.zero_le _) hdig]
    split_ifs with hle
    · simp only []
      rw [if_neg (by simp)]
    · rfl


/-- `ParseUint` on `"0"` (the replacement `Read` substitutes for a blank
numeric token): `0` at every bit width. -/
theorem parseUint_zero (w : Nat) : parseUint "0" 0 w = Except.ok 0 := rfl

/-- `ParseInt` on `"0"`: `0` at every bit width. -/
theorem parseInt_zero (w : Nat) : parseInt "0" 0 w = Except.ok 0 := by
  show parseInt (String.mk ['0']) 0 w = Except.ok 0
  unfold parseInt
  rw [if_neg (show ¬(String.mk ['0'] = "") from fun h => by cases congrArg String.data h)]
  simp only [toList_mk]
  rw [if_neg (show ¬('0' = '+') from by decide), if_neg (show ¬('0' = '-') from by decide)]
  rw [show parseUint (String.mk ['0']) 0 w = Except.ok 0 from parseUint_zero w]
  simp only []
  rw [if_neg ?h1, if_neg ?h2]
  · rfl
  case h1 =>
    rintro ⟨-, hle⟩
    have hp : 0 < 2 ^ ((if w = 0 then 64 else w) - 1) := pow_pos (by norm_num) _
    omega
  case h2 => rintro ⟨hc, -⟩; cases hc

/-- The float grammar on the literal `"0"`: the exact rational `0`. -/
theorem readFloatQ_zero : readFloatQ (String.mk ['0']) = some 0 := by
  simp [readFloatQ, scanMant, mantDigitVal]

/-- `ParseFloat` on `"0"`: finite `0` at every bit width. -/
theorem parseFloat_zero (w : Nat) : parseFloat "0" w = Except.ok (FloatVal.finite 0) := by
  show parseFloat (String.mk ['0']) w = Except.ok (FloatVal.finite 0)
  unfold parseFloat
  rw [if_neg (show ¬(String.mk ['0'] = "") from fun h => by cases congrArg String.data h)]
  rw [show parseFloatSpecial (String.mk ['0']) = none from rfl]
  simp only []
  rw [readFloatQ_zero]
  simp only []
  rw [show roundFloat w 0 = some 0 from by simp [roundFloat]]

/-- `ParseInt` with base 0 on a plain decimal literal: the decimal value,
range-checked against the signed cutoff `2^(bits-1)` of the field's bit
width. -/
theorem parseInt_decimal (c0 : Char) (rest : List Char) (w : Nat)
    (hd : ∀ c ∈ c0 :: rest, c ∈ decDigits) (h0 : c0 ≠ '0') :
    parseInt (String.mk (c0 :: rest)) 0 w =
      if digitsVal 10 (c0 :: rest) < 2 ^ ((if w = 0 then 64 else w) - 1) then
        Except.ok ((digitsVal 10 (c0 :: rest) : Nat) : Int)
      else (Except.error NumErr.rangeErr : Except NumErr Int) := by
  obtain ⟨hp, hm⟩ := decDigit_not_sign (hd c0 (by simp))
  have hmk : ¬ (String.mk (c0 :: rest) = "") := fun h => by cases congrArg String.data h
  have hW1 : 1 ≤ (if w = 0 then 64 else w) := by split_ifs <;> omega
  unfold parseInt
  rw [if_neg hmk]
  simp only [toList_mk]
  rw [if_neg hp, if_neg hm]
  rw [parseUint_decimal c0 rest w hd h0]
  set W := if w = 0 then 64 else w with hW
  set V := digitsVal 10 (c0 :: rest) with hV
  by_cases hle : V ≤ 2 ^ W - 1
  · rw [if_pos hle]
    simp only []
    by_cases hcut : 2 ^ (W - 1) ≤ V
    · rw [if_pos ⟨Bool.false_ne_true, hcut⟩, if_neg (by omega)]
    · rw [if_neg (fun hc => hcut hc.2), if_neg (fun hc => by cases hc.1),
        if_neg (show ¬(false = true) from by simp), if_pos (by omega)]
  · rw [if_neg hle]
    simp only []
    have hcut : 2 ^ (W - 1) ≤ 2 ^ W - 1 := by
      have h2 : 2 ^ (W - 1) < 2 ^ W := Nat.pow_lt_pow_right (by norm_num) (by omega)
      omega
    rw [if_pos ⟨Bool.false_ne_true, hcut⟩, if_neg (by omega)]

/-- A character whose case-folded form is one of the radix markers `b`,
`o`, `x` is a letter, so `digitVal` accepts it. -/
theorem digitVal_of_marker (c : Char)
    (h : lowerC c = 'b' ∨ lowerC c = 'o' ∨ lowerC c = 'x') : digitVal c ≠ none := by
  unfold digitVal
  split_ifs with h1 h2
  · simp
  · simp
  · exfalso
    apply h2
    rcases h with h | h | h <;> rw [h] <;> exact ⟨by decide, by decide⟩

/-- `ParseUint` with base 0 rejects every token containing a character
that is not an underscore and no digit in any base (non-numeric content):
whatever part of the token is consumed as a radix prefix, the offending
character reaches the digit loop, which fails. -/
theorem parseUint_nonnumeric (tok : String) (w : Nat) (c : Char)
    (hc : c ∈ tok.toList) (hdv : digitVal c = none) (hu : c ≠ '_') :
    ∃ e, parseUint tok 0 w = Except.error e := by
  have hc0 : c ≠ '0' := fun h => by
    rw [h] at hdv
    cases hdv
  have hloop : ∀ (base0 : Bool) (b maxVal : Nat) (cs : List Char), c ∈ cs →
      ∃ e, parseUintLoop base0 b maxVal cs 0 false = Except.error e :=
    fun base0 b maxVal cs hmem =>
      parseUintLoop_err_of_bad base0 b maxVal cs 0 false
        ⟨c, hmem, fun hh => hu hh.1, fun d hd => by rw [hdv] at hd; cases hd⟩
  have hne : ¬ (tok = "") := by
    intro h
    rw [h] at hc
    cases hc
  unfold parseUint
  rw [if_neg hne]
  simp only []
  rw [if_neg (show ¬((2:Nat) ≤ 0 ∧ (0:Nat) ≤ 36) from by decide)]
  rcases htl : tok.toList with _ | ⟨a, _ | ⟨b, _ | ⟨d, r⟩⟩⟩
  · rw [htl] at hc
    cases hc
  · rw [htl] at hc
    simp only []
    rcases List.mem_singleton.mp hc with rfl
    rw [if_neg hc0]
    obtain ⟨e, he⟩ := hloop _ 10 _ [c] (by simp)
    exact ⟨e, by rw [he]⟩
  · rw [htl] at hc
    simp only []
    by_cases ha : a = '0'
    · subst ha
      rw [if_pos rfl]
      rcases List.mem_cons.mp hc with rfl | hc'
      · exact absurd rfl hc0
      · obtain ⟨e, he⟩ := hloop _ 8 _ [b] hc'
        exact ⟨e, by rw [he]⟩
    · rw [if_neg ha]
      obtain ⟨e, he⟩ := hloop _ 10 _ [a, b] hc
      exact ⟨e, by rw [he]⟩
  · rw [htl] at hc
    simp only []
    by_cases ha : a = '0'
    · subst ha
      rw [if_pos rfl]
      have hcbdr : c ∈ b :: d :: r := by
        rcases List.mem_cons.mp hc with h | h
        · exact absurd h hc0
        · exact h
      by_cases hb : lowerC b = 'b'
      · rw [if_pos hb]
        rcases List.mem_cons.mp hcbdr with rfl | hcd
        · exact absurd hdv (digitVal_of_marker c (Or.inl hb))
        · obtain ⟨e, he⟩ := hloop _ 2 _ (d :: r) hcd
          exact ⟨e, by rw [he]⟩
      · rw [if_neg hb]
        by_cases ho : lowerC b = 'o'
        · rw [if_pos ho]
          rcases List.mem_cons.mp hcbdr with rfl | hcd
          · exact absurd hdv (digitVal_of_marker c (Or.inr (Or.inl ho)))
          · obtain ⟨e, he⟩ := hloop _ 8 _ (d :: r) hcd
            exact ⟨e, by rw [he]⟩
        · rw [if_neg ho]
          by_cases hx : lowerC b = 'x'
          · rw [if_pos hx]
            rcases List.mem_cons.mp hcbdr with rfl | hcd
            · exact absurd hdv (digitVal_of_marker c (Or.inr (Or.inr hx)))
            · obtain ⟨e, he⟩ := hloop _ 16 _ (d :: r) hcd
              exact ⟨e, by rw [he]⟩
          · rw [if_neg hx]
            obtain ⟨e, he⟩ := hloop _ 8 _ (b :: d :: r) hcbdr
            exact ⟨e, by rw [he]⟩
    · rw [if_neg ha]
      obtain ⟨e, he⟩ := hloop _ 10 _ (a :: b :: d :: r) hc
      exact ⟨e, by rw [he]⟩

/-- A successful `Read` records exactly the result of `readRows` on the
data rows (the tokenized rows minus the header), starting from one empty
index per `index`-tagged field. -/
theorem read_ok_rows (jdec : Field → String → Option γ) (rf rf' : RecordFile γ)
    (content : String) (h : rf.Read jdec content = ReadResult.ok rf') :
    1 ≤ ((applyDefaults rf).ReadData content).length ∧
    rf'.typeRecord = rf.typeRecord ∧
    rf' = { applyDefaults rf with records := rf'.records, indexes := rf'.indexes } ∧
    readRows jdec rf.typeRecord ((applyDefaults rf).ReadData content).tail 1
        (initIndexes rf.typeRecord) = Except.ok (rf'.records, rf'.indexes) := by
  simp only [RecordFile.Read] at h
  split at h
  · cases h
  · rename_i hlen0
    split at h
    · cases h
    · rename_i recs idxs hrr
      cases h
      refine ⟨by omega, rfl, rfl, hrr⟩

end Lemmas

/-! ## Claims -/

section Claims

variable {γ : Type} [DecidableEq γ]

/-- C1: if `Read` returns an error (row-length validation, field coercion,
or index building), the `RecordFile`'s visible state is unchanged:
`records` and `indexes` are untouched, so `NumRecord`, `Record`, `Indexes`
and `Index` observe exactly what they observed before the call; moreover
an error on a prefix of the rows determines the whole result — the
remaining rows are never processed (fail-fast, first error wins). -/
theorem C1_read_error_atomicity (jdec : Field → String → Option γ)
    (rf rf₂ : RecordFile γ) (content : String) (e : ReadErr)
    (h : rf.Read jdec content = ReadResult.err rf₂ e) :
    rf₂.records = rf.records ∧ rf₂.indexes = rf.indexes ∧
    rf₂.NumRecord = rf.NumRecord ∧
    (∀ i : Int, rf₂.Record i = rf.Record i) ∧
    (∀ s : Int, rf₂.Indexes s = rf.Indexes s) ∧
    (∀ k : Value γ, rf₂.Index k = rf.Index k) ∧
    (∀ (fields : List Field) (xs ys : List (List String)) (n : Nat)
        (idxs : List (Index γ)) (e₂ : ReadErr),
      readRows jdec fields xs n idxs = Except.error e₂ →
      readRows jdec fields (xs ++ ys) n idxs = Except.error e₂) := by
  have hrf : rf₂ = applyDefaults rf := by
    simp only [RecordFile.Read] at h
    split at h
    · cases h
    · split at h
      · cases h
        rfl
      · cases h
  subst hrf
  refine ⟨rfl, rfl, rfl, fun i => rfl, fun s => rfl, fun k => rfl, ?_⟩
  intro fields xs ys n idxs e₂ he₂
  rw [readRows_append, he₂]

/-- C1 witness: a concrete failing load (a short data row) leaves the
records and indexes of the store untouched. -/
theorem C1_read_error_atomicity_witness :
    rfWD.records = rfW.records ∧ rfWD.indexes = rfW.indexes :=
  And.intro
    (C1_read_error_atomicity jdU rfW rfWD "Name~Age!####!\ndave"
      (ReadErr.fieldCountMismatch 1 1 2) (by decide)).1
    (C1_read_error_atomicity jdU rfW rfWD "Name~Age!####!\ndave"
      (ReadErr.fieldCountMismatch 1 1 2) (by decide)).2.1

/-- C2: for every successful load, `NumRecord()` equals the number of
rows retained by the tokenizer minus exactly one: the first retained row
is discarded as the header and never coerced, regardless of its content —
two contents whose tokenizations agree after the first retained row load
to the identical store. -/
theorem C2_record_count (jdec : Field → String → Option γ) (rf : RecordFile γ)
    (content : String) (rf' : RecordFile γ)
    (h : rf.Read jdec content = ReadResult.ok rf') :
    rf'.NumRecord = ((applyDefaults rf).ReadData content).length - 1 ∧
    (∀ (c₂ : String) (h₁ h₂ : List String) (t : List (List String)),
      (applyDefaults rf).ReadData content = h₁ :: t →
      (applyDefaults rf).ReadData c₂ = h₂ :: t →
      rf.Read jdec c₂ = ReadResult.ok rf') := by
  obtain ⟨hge, hty, hstruct, hrr⟩ := read_ok_rows jdec rf rf' content h
  have hle : (indexedCols rf.typeRecord).length ≤
      (initIndexes (γ := γ) rf.typeRecord).length :=
    le_of_eq (initIndexes_length rf.typeRecord).symm
  obtain ⟨R1, -, -, -, -, -⟩ :=
    readRows_ok jdec rf.typeRecord _ 1 _ _ _ hrr hle (le_refl 1)
  constructor
  · show rf'.records.length = _
    rw [R1, List.length_tail]
  · intro c₂ h₁ h₂ t he₁ he₂
    rw [he₁] at hrr
    simp only [List.tail_cons] at hrr
    simp only [RecordFile.Read, he₂, applyDefaults_typeRecord]
    rw [if_neg (by simp)]
    simp only [List.tail_cons]
    rw [hrr]
    exact congrArg ReadResult.ok hstruct.symm

/-- C2 witness: the spec's example content loads two records out of three
retained rows. -/
theorem C2_record_count_witness :
    rfRes.NumRecord = ((applyDefaults rfW).ReadData contentW).length - 1 :=
  (C2_record_count jdU rfW contentW rfRes (by decide)).1

/-- C3 counterexample: the original claim fails on NaN.  `ParseFloat
"nan"` succeeds, so a NaN-valued indexed record loads; but Go map lookup
never matches a NaN key, so looking up that record's coerced value for
the indexed field returns "absent" instead of the record. -/
theorem C3_counterexample :
    rfF.Read jdU contentNaN = ReadResult.ok rfFRes ∧
    (rfFRes.records.getD 0 []).getD (colOf rfFRes.typeRecord 0) .vUnset =
      Value.vFloat FloatVal.nan ∧
    idxGet (rfFRes.indexes.getD 0 [])
      ((rfFRes.records.getD 0 []).getD (colOf rfFRes.typeRecord 0) .vUnset) ≠ some 0 ∧
    rfFRes.Index
      ((rfFRes.records.getD 0 []).getD (colOf rfFRes.typeRecord 0) .vUnset) = none := by
  decide

/-- C3 (amended): in a successfully loaded store, `Indexes(slot)` returns
the slot's index; looking up a record's coerced value for the indexed
field returns that record whenever the value is not a float NaN; a NaN
key is never found (Go `==` never matches it); a key that no record's
value Go-compares equal to is absent; and `Index` is lookup in slot 0. -/
theorem C3_index_lookup (jdec : Field → String → Option γ) (rf rf' : RecordFile γ)
    (content : String) (h : rf.Read jdec content = ReadResult.ok rf') :
    ∀ s, s < rf'.indexes.length →
      rf'.Indexes (s : Int) = IndexesResult.found (rf'.indexes.getD s []) ∧
      (∀ p, p < rf'.records.length →
        isNaNKey ((rf'.records.getD p []).getD (colOf rf'.typeRecord s) .vUnset) = false →
        idxGet (rf'.indexes.getD s [])
          ((rf'.records.getD p []).getD (colOf rf'.typeRecord s) .vUnset) = some p) ∧
      (∀ k, isNaNKey k = true → idxGet (rf'.indexes.getD s []) k = none) ∧
      (∀ k, (∀ p, p < rf'.records.length →
          goKeyEq ((rf'.records.getD p []).getD (colOf rf'.typeRecord s) .vUnset) k =
            false) →
        idxGet (rf'.indexes.getD s []) k = none) ∧
      (∀ k, rf'.Index k = idxGet (rf'.indexes.getD 0 []) k) := by
  obtain ⟨hge, hty, hstruct, hrr⟩ := read_ok_rows jdec rf rf' content h
  have hle : (indexedCols rf.typeRecord).length ≤
      (initIndexes (γ := γ) rf.typeRecord).length :=
    le_of_eq (initIndexes_length rf.typeRecord).symm
  obtain ⟨R1, R2len, R2, R4, R5, R6⟩ :=
    readRows_ok jdec rf.typeRecord _ 1 _ _ _ hrr hle (le_refl 1)
  have hidxlen : rf'.indexes.length = (indexedCols rf.typeRecord).length := by
    rw [R2len, initIndexes_length]
  intro s hs
  have hs' : s < (indexedCols rf.typeRecord).length := hidxlen ▸ hs
  have hslot : rf'.indexes.getD s [] =
      buildIdx rf'.records (colOf rf.typeRecord s) 0 := by
    have h4 := R4 s hs'
    rw [initIndexes_getD, List.append_nil] at h4
    exact h4
  have hIdx0 : rf'.Indexes ((s : Nat) : Int) =
      IndexesResult.found (rf'.indexes.getD s []) := by
    unfold RecordFile.Indexes
    have h1 : ¬ ((rf'.indexes.length : Int) ≤ (s : Int)) := by
      exact_mod_cast Nat.not_le.mpr hs
    have h2 : ¬ ((s : Int) < 0) := by
      simp
    rw [if_neg h1, if_neg h2]
    simp
  refine ⟨hIdx0, ?_, ?_, ?_, ?_⟩
  · intro p hp hnn
    rw [hty] at hnn
    rw [hty, hslot]
    have hfr : ∀ m, m < rf'.records.length → m ≠ p →
        goKeyEq ((rf'.records.getD m []).getD (colOf rf.typeRecord s) .vUnset)
          ((rf'.records.getD p []).getD (colOf rf.typeRecord s) .vUnset) = false := by
      intro m hm hne
      cases hg : goKeyEq ((rf'.records.getD m []).getD (colOf rf.typeRecord s) .vUnset)
          ((rf'.records.getD p []).getD (colOf rf.typeRecord s) .vUnset) with
      | false => rfl
      | true => exact absurd (R6 s hs' m p hm hp hg) hne
    simpa using idxGet_buildIdx_self rf'.records (colOf rf.typeRecord s) 0 p hp hnn hfr
  · intro k hk
    exact idxGet_nan _ k hk
  · intro k hk
    rw [hslot]
    exact idxGet_buildIdx_none rf'.records (colOf rf.typeRecord s) 0 k (by
      intro m hm
      have h5 := hk m hm
      rwa [hty] at h5)
  · intro k
    have hlen0 : 0 < rf'.indexes.length := by omega
    have h0 : rf'.Indexes (0 : Int) =
        IndexesResult.found (rf'.indexes.getD 0 []) := by
      unfold RecordFile.Indexes
      rw [if_neg (by exact_mod_cast Nat.not_le.mpr hlen0), if_neg (by simp)]
      simp
    unfold RecordFile.Index
    rw [h0]

/-- C3 witness: on the loaded example store, the two records' (non-NaN)
Age values look up to positions 0 and 1, a NaN key and an unused key are
absent. -/
theorem C3_index_lookup_witness :
    idxGet (rfRes.indexes.getD 0 [])
        ((rfRes.records.getD 0 []).getD (colOf rfRes.typeRecord 0) .vUnset) = some 0 ∧
    idxGet (rfRes.indexes.getD 0 [])
        ((rfRes.records.getD 1 []).getD (colOf rfRes.typeRecord 0) .vUnset) = some 1 ∧
    idxGet (rfRes.indexes.getD 0 []) (Value.vFloat FloatVal.nan) = none ∧
    idxGet (rfRes.indexes.getD 0 []) (Value.vInt 99) = none :=
  ⟨((C3_index_lookup jdU rfW rfRes contentW (by decide)) 0 (by decide)).2.1 0
      (by decide) (by decide),
   ((C3_index_lookup jdU rfW rfRes contentW (by decide)) 0 (by decide)).2.1 1
      (by decide) (by decide),
   ((C3_index_lookup jdU rfW rfRes contentW (by decide)) 0 (by decide)).2.2.1
      (Value.vFloat FloatVal.nan) (by decide),
   ((C3_index_lookup jdU rfW rfRes contentW (by decide)) 0 (by decide)).2.2.2.1
      (Value.vInt 99) (by decide)⟩

/-- C4 counterexample: the original claim fails on NaN.  Two data rows
with the same coerced value — both `nan` — for an indexed float field
load successfully: the duplicate check is a Go map lookup, which a NaN
key never matches, so no `DuplicateIndexError` is raised and both rows
are retained (each insertion adding an unretrievable entry). -/
theorem C4_counterexample :
    rfF.Read jdU contentNaN2 = ReadResult.ok rfFRes2 ∧
    (rfFRes2.records.getD 0 []).getD (colOf rfFRes2.typeRecord 0) .vUnset =
      (rfFRes2.records.getD 1 []).getD (colOf rfFRes2.typeRecord 0) .vUnset ∧
    (∀ rf₂ e, ¬ (rfF.Read jdU contentNaN2 = ReadResult.err rf₂ e)) := by
  refine ⟨by decide, by decide, ?_⟩
  intro rf₂ e hcontra
  rw [show rfF.Read jdU contentNaN2 = ReadResult.ok rfFRes2 from by decide] at hcontra
  cases hcontra

/-- C4 (amended): in a successfully loaded store, no two distinct records
have Go-equal (`==`) coerced values for an indexed column — NaN values,
which Go `==` never equates, are exempt and may repeat; and when `Read`
fails with a `DuplicateIndexError`, the reported row and column are those
of a second occurrence — an `index`-tagged column whose coerced value
equals (structurally, and is not NaN) that of an earlier data row — and
the store's visible state is unchanged. -/
theorem C4_duplicate_index (jdec : Field → String → Option γ) (rf : RecordFile γ)
    (content : String) :
    (∀ rf', rf.Read jdec content = ReadResult.ok rf' →
      ∀ s, s < rf'.indexes.length → ∀ p q, p < rf'.records.length →
        q < rf'.records.length →
        goKeyEq ((rf'.records.getD p []).getD (colOf rf.typeRecord s) .vUnset)
          ((rf'.records.getD q []).getD (colOf rf.typeRecord s) .vUnset) = true →
        p = q) ∧
    (∀ rf₂ n i, rf.Read jdec content = ReadResult.err rf₂ (.duplicateIndex n i) →
      rf₂.records = rf.records ∧ rf₂.indexes = rf.indexes ∧
      i < rf.typeRecord.length ∧ (rf.typeRecord.getD i default).tag = "index" ∧
      ∃ m, 1 ≤ m ∧ m < n ∧ ∃ v,
        coerceField jdec (rf.typeRecord.getD i default)
          ((((applyDefaults rf).ReadData content).tail.getD (m - 1) []).getD i "") =
            Except.ok v ∧
        coerceField jdec (rf.typeRecord.getD i default)
          ((((applyDefaults rf).ReadData content).tail.getD (n - 1) []).getD i "") =
            Except.ok v ∧
        isNaNKey v = false) := by
  constructor
  · intro rf' h s hs p q hp hq heq
    obtain ⟨hge, hty, hstruct, hrr⟩ := read_ok_rows jdec rf rf' content h
    have hle : (indexedCols rf.typeRecord).length ≤
        (initIndexes (γ := γ) rf.typeRecord).length :=
      le_of_eq (initIndexes_length rf.typeRecord).symm
    obtain ⟨-, R2len, -, -, -, R6⟩ :=
      readRows_ok jdec rf.typeRecord _ 1 _ _ _ hrr hle (le_refl 1)
    have hs' : s < (indexedCols rf.typeRecord).length := by
      rw [R2len, initIndexes_length] at hs
      exact hs
    exact R6 s hs' p q hp hq heq
  · intro rf₂ n i h
    simp only [RecordFile.Read] at h
    split at h
    · cases h
    · rename_i hlen0
      split at h
      · rename_i e' hrr
        cases h
        obtain ⟨k, hk, recs2, idxs₁, hpre, hcase⟩ :=
          readRows_err jdec rf.typeRecord _ 1 _ _ hrr
        rcases hcase with ⟨h1, h2⟩ | ⟨h1, h2⟩
        · cases h2
        · obtain ⟨j, hj, hfcase⟩ := readFields_err jdec (1 + k) rf.typeRecord _ 0 0 _ _ h2
          rcases hfcase with ⟨ce, hce, -⟩ | ⟨hdz, t, ht, hcol, v, hv1, hsome⟩
          · cases hce
          · have hni : n = 1 + k ∧ i = j := by
              injection hdz with hn hi
              exact ⟨hn, by omega⟩
            obtain ⟨hn, hi⟩ := hni
            have hle : (indexedCols rf.typeRecord).length ≤
                (initIndexes (γ := γ) rf.typeRecord).length :=
              le_of_eq (initIndexes_length rf.typeRecord).symm
            obtain ⟨pR1, -, pR2, pR4, -, -⟩ :=
              readRows_ok jdec rf.typeRecord _ 1 _ _ _ hpre hle (le_refl 1)
            have hcolt : colOf rf.typeRecord t = j := hcol
            have hslot : idxs₁.getD t [] =
                buildIdx recs2 (colOf rf.typeRecord t) 0 := by
              have h4 := pR4 t ht
              rw [initIndexes_getD, List.append_nil] at h4
              exact h4
            rw [show (0 : Nat) + t = t from by omega, hslot, hcolt] at hsome
            obtain ⟨m', hm', hkeyg⟩ := idxGet_buildIdx_isSome recs2 j 0 v hsome
            obtain ⟨hkey, hvnn⟩ := goKeyEq_eq _ _ hkeyg
            have hreclen : recs2.length = k := by
              rw [pR1, List.length_take]
              omega
            have hmem : j ∈ indexedColsFrom rf.typeRecord 0 := by
              rw [← hcol]
              exact getD_mem _ t 0 ht
            obtain ⟨-, hjlen, hjtag⟩ := indexedColsFrom_mem rf.typeRecord 0 j hmem
            simp only [Nat.sub_zero] at hjlen hjtag
            have hco := (pR2 m' (by omega)).2.2 j hjlen
            rw [getD_take _ k m' [] (by omega)] at hco
            rw [hkey] at hco
            rw [hkey] at hvnn
            refine ⟨rfl, rfl, by rw [hi]; exact hjlen, by rw [hi]; exact hjtag,
              m' + 1, by omega, by omega, v, ?_, ?_, hvnn⟩
            · rw [hi]
              simpa using hco
            · rw [hi, hn]
              simpa using hv1
      · cases h

/-- C4 witness: the spec's duplicate variant (`alice~30` then `carol~30`)
fails naming data row 2, column 1, with the store unchanged; row 1's and
row 2's coerced Age values agree. -/
theorem C4_duplicate_index_witness :
    rfWD.records = rfW.records ∧ rfWD.indexes = rfW.indexes ∧
    (1 : Nat) < rfW.typeRecord.length ∧
    (rfW.typeRecord.getD 1 default).tag = "index" :=
  And.intro
    ((C4_duplicate_index jdU rfW "Name~Age!####!\nalice~30!####!\ncarol~30").2
      rfWD 2 1 (by decide)).1
    (And.intro
      ((C4_duplicate_index jdU rfW "Name~Age!####!\nalice~30!####!\ncarol~30").2
        rfWD 2 1 (by decide)).2.1
      (And.intro
        ((C4_duplicate_index jdU rfW "Name~Age!####!\nalice~30!####!\ncarol~30").2
          rfWD 2 1 (by decide)).2.2.1
        ((C4_duplicate_index jdU rfW "Name~Age!####!\nalice~30!####!\ncarol~30").2
          rfWD 2 1 (by decide)).2.2.2.1))

/-- C5: every data row of a successful load has exactly the schema's field
count; and when `Read` fails with a `FormatError`, the reported payloads
are exactly the 1-based data-row number of a row whose token count differs
from the schema's field count, the observed token count and the expected
field count, with the store's visible state unchanged. -/
theorem C5_format_error (jdec : Field → String → Option γ) (rf : RecordFile γ)
    (content : String) :
    (∀ rf', rf.Read jdec content = ReadResult.ok rf' →
      ∀ m, m < ((applyDefaults rf).ReadData content).tail.length →
        (((applyDefaults rf).ReadData content).tail.getD m []).length =
          rf.typeRecord.length) ∧
    (∀ rf₂ n obs exp,
      rf.Read jdec content = ReadResult.err rf₂ (.fieldCountMismatch n obs exp) →
      1 ≤ n ∧ n ≤ ((applyDefaults rf).ReadData content).tail.length ∧
      obs = (((applyDefaults rf).ReadData content).tail.getD (n - 1) []).length ∧
      exp = rf.typeRecord.length ∧ obs ≠ exp ∧
      rf₂.records = rf.records ∧ rf₂.indexes = rf.indexes) := by
  constructor
  · intro rf' h m hm
    obtain ⟨hge, hty, hstruct, hrr⟩ := read_ok_rows jdec rf rf' content h
    have hle : (indexedCols rf.typeRecord).length ≤
        (initIndexes (γ := γ) rf.typeRecord).length :=
      le_of_eq (initIndexes_length rf.typeRecord).symm
    obtain ⟨-, -, R2, -, -, -⟩ :=
      readRows_ok jdec rf.typeRecord _ 1 _ _ _ hrr hle (le_refl 1)
    exact (R2 m hm).1
  · intro rf₂ n obs exp h
    simp only [RecordFile.Read] at h
    split at h
    · cases h
    · rename_i hlen0
      split at h
      · rename_i e' hrr
        cases h
        obtain ⟨k, hk, recs2, idxs₁, hpre, hcase⟩ :=
          readRows_err jdec rf.typeRecord _ 1 _ _ hrr
        rcases hcase with ⟨h1, h2⟩ | ⟨h1, h2⟩
        · injection h2 with hn hobs hexp
          subst hn
          subst hobs
          subst hexp
          refine ⟨by omega, by omega, ?_, rfl, by simpa using h1, rfl, rfl⟩
          have harith : 1 + k - 1 = k := by omega
          rw [harith]
        · obtain ⟨j, hj, hfcase⟩ := readFields_err jdec (1 + k) rf.typeRecord _ 0 0 _ _ h2
          rcases hfcase with ⟨ce, hce, -⟩ | ⟨hdz, -⟩
          · cases hce
          · cases hdz
      · cases h

/-- C5 witness: the spec's short-row variant (`dave` under a two-field
schema) fails with row 1, observed 1, expected 2, store unchanged. -/
theorem C5_format_error_witness :
    (1 : Nat) = (((applyDefaults rfW).ReadData "Name~Age!####!\ndave").tail.getD 0 []).length ∧
    (2 : Nat) = rfW.typeRecord.length ∧
    rfWD.records = rfW.records :=
  And.intro
    ((C5_format_error jdU rfW "Name~Age!####!\ndave").2 rfWD 1 1 2 (by decide)).2.2.1
    (And.intro
      ((C5_format_error jdU rfW "Name~Age!####!\ndave").2 rfWD 1 1 2 (by decide)).2.2.2.1
      ((C5_format_error jdU rfW "Name~Age!####!\ndave").2 rfWD 1 1 2 (by decide)).2.2.2.2.2.1)

/-- C6: numeric coercion.  (1) An empty or all-whitespace token coerces to
zero for signed-integer, unsigned-integer and floating-point fields.
(2) A non-blank token of an integer field is handed verbatim to the
base-0 parser sized to the field's declared bit width, and the field
coercion mirrors its outcome (parser errors become `CoercionError`s).
(3) A plain decimal literal parses to its decimal value, range-checked
against the width (`2^bits - 1` unsigned, `2^(bits-1)` signed), with
overflow reported as a range error.  (4) A leading `0x` selects
hexadecimal and (5) a bare leading `0` selects octal, range-checked the
same way.  (6) A token containing a character that is no digit in any
base (and no underscore) is rejected by the integer parser.  (7) When
`Read` fails with the `parse field` error, its payload is the 1-based
data-row number and the column of a token whose coercion fails with
exactly the wrapped error, and the store's visible state is unchanged. -/
theorem C6_numeric_coercion (jdec : Field → String → Option γ) (rf : RecordFile γ)
    (content : String) :
    (∀ (name tag tok : String), trimSpace tok = "" →
      (∀ bits, coerceField jdec ⟨name, Kind.kInt bits, tag⟩ tok =
          Except.ok (Value.vInt 0)) ∧
      (∀ bits, coerceField jdec ⟨name, Kind.kUint bits, tag⟩ tok =
          Except.ok (Value.vUint 0)) ∧
      (∀ bits, coerceField jdec ⟨name, Kind.kFloat bits, tag⟩ tok =
          Except.ok (Value.vFloat (FloatVal.finite 0)))) ∧
    (∀ (name tag tok : String) (bits : Nat), ¬ (trimSpace tok = "") →
      coerceField jdec ⟨name, Kind.kInt bits, tag⟩ tok =
        (match parseInt tok 0 bits with
          | Except.ok v => Except.ok (Value.vInt v)
          | Except.error e => Except.error (CoerceErr.numErr e)) ∧
      coerceField jdec ⟨name, Kind.kUint bits, tag⟩ tok =
        (match parseUint tok 0 bits with
          | Except.ok v => Except.ok (Value.vUint v)
          | Except.error e => Except.error (CoerceErr.numErr e))) ∧
    (∀ (c0 : Char) (ds : List Char) (w : Nat),
      (∀ c ∈ c0 :: ds, c ∈ decDigits) → c0 ≠ '0' →
      parseUint (String.mk (c0 :: ds)) 0 w =
        (if digitsVal 10 (c0 :: ds) ≤ 2 ^ (if w = 0 then 64 else w) - 1 then
          Except.ok (digitsVal 10 (c0 :: ds))
        else Except.error NumErr.rangeErr) ∧
      parseInt (String.mk (c0 :: ds)) 0 w =
        (if digitsVal 10 (c0 :: ds) < 2 ^ ((if w = 0 then 64 else w) - 1) then
          Except.ok ((digitsVal 10 (c0 :: ds) : Nat) : Int)
        else (Except.error NumErr.rangeErr : Except NumErr Int))) ∧
    (∀ (d0 : Char) (ds : List Char) (w : Nat), (∀ c ∈ d0 :: ds, c ∈ hexDigits) →
      parseUint (String.mk ('0' :: 'x' :: d0 :: ds)) 0 w =
        (if digitsVal 16 (d0 :: ds) ≤ 2 ^ (if w = 0 then 64 else w) - 1 then
          Except.ok (digitsVal 16 (d0 :: ds))
        else Except.error NumErr.rangeErr)) ∧
    (∀ (d0 : Char) (ds : List Char) (w : Nat), (∀ c ∈ d0 :: ds, c ∈ octDigits) →
      parseUint (String.mk ('0' :: d0 :: ds)) 0 w =
        (if digitsVal 8 (d0 :: ds) ≤ 2 ^ (if w = 0 then 64 else w) - 1 then
          Except.ok (digitsVal 8 (d0 :: ds))
        else Except.error NumErr.rangeErr)) ∧
    (∀ (tok : String) (w : Nat) (c : Char),
      c ∈ tok.toList → digitVal c = none → c ≠ '_' →
      ∃ e, parseUint tok 0 w = Except.error e) ∧
    (∀ (rf₂ : RecordFile γ) (n i : Nat) (ce : CoerceErr),
      rf.Read jdec content = ReadResult.err rf₂ (ReadErr.parseField n i ce) →
      rf₂.records = rf.records ∧ rf₂.indexes = rf.indexes ∧
      1 ≤ n ∧ n ≤ ((applyDefaults rf).ReadData content).tail.length ∧
      i < rf.typeRecord.length ∧
      coerceField jdec (rf.typeRecord.getD i default)
          ((((applyDefaults rf).ReadData content).tail.getD (n - 1) []).getD i "") =
        Except.error ce) := by
  refine ⟨?_, ?_, ?_, ?_, ?_, ?_, ?_⟩
  · intro name tag tok hb
    refine ⟨fun bits => ?_, fun bits => ?_, fun bits => ?_⟩
    · simp only [coerceField]
      rw [if_pos hb, parseInt_zero bits]
    · simp only [coerceField]
      rw [if_pos hb, parseUint_zero bits]
    · simp only [coerceField]
      rw [if_pos hb, parseFloat_zero bits]
  · intro name tag tok bits hnb
    constructor
    · simp only [coerceField]
      rw [if_neg hnb]
    · simp only [coerceField]
      rw [if_neg hnb]
  · intro c0 ds w hd h0
    exact ⟨parseUint_decimal c0 ds w hd h0, parseInt_decimal c0 ds w hd h0⟩
  · exact fun d0 ds w hd => parseUint_hex d0 ds w hd
  · exact fun d0 ds w hd => parseUint_octal d0 ds w hd
  · exact fun tok w c hc hdv hu => parseUint_nonnumeric tok w c hc hdv hu
  · intro rf₂ n i ce h
    simp only [RecordFile.Read] at h
    split at h
    · cases h
    · rename_i hlen0
      split at h
      · rename_i e' hrr
        cases h
        obtain ⟨k, hk, recs2, idxs₁, hpre, hcase⟩ :=
          readRows_err jdec rf.typeRecord _ 1 _ _ hrr
        rcases hcase with ⟨h1, h2⟩ | ⟨h1, h2⟩
        · cases h2
        · obtain ⟨j, hj, hfcase⟩ := readFields_err jdec (1 + k) rf.typeRecord _ 0 0 _ _ h2
          rcases hfcase with ⟨ce', hce, hco⟩ | ⟨hdz, -⟩
          · injection hce with hn hi hcee
            subst hn
            subst hi
            subst hcee
            refine ⟨rfl, rfl, by omega, by omega, by omega, ?_⟩
            have harith : 1 + k - 1 = k := by omega
            rw [harith]
            simpa using hco
          · cases hdz
      · cases h

/-- C6 witness: a blank token coerces to integer `0`; `"30"` parses as
decimal 30 (both signed and unsigned); `"0x1f"` is hexadecimal 31 even at
width 8; `"017"` is octal 15; `"300"` overflows width 8 with a range
error; `"1,5"` is non-numeric; and loading `bob~x9` under the `Name~Age`
schema fails with the parse-field error at data row 1, column 1, wrapping
the syntax error, with the store's records unchanged. -/
theorem C6_numeric_coercion_witness :
    coerceField jdU ⟨"Age", Kind.kInt 64, "index"⟩ " " = Except.ok (Value.vInt 0) ∧
    parseUint (String.mk ['3', '0']) 0 64 = Except.ok 30 ∧
    parseInt (String.mk ['3', '0']) 0 64 = Except.ok 30 ∧
    parseUint (String.mk ['0', 'x', '1', 'f']) 0 8 = Except.ok 31 ∧
    parseUint (String.mk ['0', '1', '7']) 0 64 = Except.ok 15 ∧
    parseUint (String.mk ['3', '0', '0']) 0 8 = Except.error NumErr.rangeErr ∧
    (∃ e, parseUint "1,5" 0 64 = Except.error e) ∧
    rfWD.records = rfW.records ∧
    coerceField jdU (rfW.typeRecord.getD 1 default)
        ((((applyDefaults rfW).ReadData "Name~Age!####!\nbob~x9").tail.getD 0 []).getD 1 "") =
      Except.error (CoerceErr.numErr NumErr.syntaxErr) := by
  refine ⟨?_, ?_, ?_, ?_, ?_, ?_, ?_, ?_, ?_⟩
  · exact ((C6_numeric_coercion jdU rfW "").1 "Age" "index" " " (by decide)).1 64
  · rw [((C6_numeric_coercion jdU rfW "").2.2.1 '3' ['0'] 64 (by decide) (by decide)).1]
    rfl
  · rw [((C6_numeric_coercion jdU rfW "").2.2.1 '3' ['0'] 64 (by decide) (by decide)).2]
    rfl
  · rw [(C6_numeric_coercion jdU rfW "").2.2.2.1 '1' ['f'] 8 (by decide)]
    rfl
  · rw [(C6_numeric_coercion jdU rfW "").2.2.2.2.1 '1' ['7'] 64 (by decide)]
    rfl
  · rw [((C6_numeric_coercion jdU rfW "").2.2.1 '3' ['0', '0'] 8 (by decide) (by decide)).1]
    rfl
  · exact (C6_numeric_coercion jdU rfW "").2.2.2.2.2.1 "1,5" 64 ',' (by decide)
      (by decide) (by decide)
  · exact ((C6_numeric_coercion jdU rfW "Name~Age!####!\nbob~x9").2.2.2.2.2.2 rfWD 1 1
      (CoerceErr.numErr NumErr.syntaxErr) (by decide)).1
  · exact ((C6_numeric_coercion jdU rfW "Name~Age!####!\nbob~x9").2.2.2.2.2.2 rfWD 1 1
      (CoerceErr.numErr NumErr.syntaxErr) (by decide)).2.2.2.2.2

/-- C7 counterexample: the claim says an `index`-tagged field of array
kind makes `New` fail, but `New` accepts it — the index check rejects
only struct, slice and map kinds. -/
theorem C7_counterexample :
    (new (GoType.structT [⟨"A", Kind.kArray, "index"⟩]) :
        Except NewErr (RecordFile Unit)) = Except.ok rfArr := rfl

/-- C7 (amended): `New` fails with a `SchemaError` iff some field has an
invalid kind or is `index`-tagged with a struct, slice or map kind; array
kinds are accepted for indexing. -/
theorem C7_new_schema_errors (fields : List Field) :
    (∃ e, (new (GoType.structT fields) : Except NewErr (RecordFile γ)) =
        Except.error e) ↔
      ∃ f ∈ fields, ¬ kindValid f.kind ∨ (f.tag = "index" ∧ kindUnindexable f.kind) := by
  rcases hck : checkFields fields 0 with _ | e₀
  · unfold new
    simp only [hck]
    constructor
    · rintro ⟨e, he⟩
      cases he
    · intro hex
      exfalso
      rw [checkFields_eq_none fields 0] at hck
      obtain ⟨f, hf, hor⟩ := hex
      rcases hor with hbad | hbad
      · exact hbad (hck f hf).1
      · exact (hck f hf).2 hbad
  · unfold new
    simp only [hck]
    constructor
    · intro _
      by_contra hno
      push_neg at hno
      have hnone : checkFields fields 0 = none := by
        rw [checkFields_eq_none fields 0]
        intro f hf
        obtain ⟨h1, h2⟩ := hno f hf
        exact ⟨by simpa using h1, fun hab => h2 hab.1 hab.2⟩
      rw [hnone] at hck
      cases hck
    · intro _
      exact ⟨e₀, rfl⟩

/-- C7 witness: an `index`-tagged slice field makes `New` fail. -/
theorem C7_new_schema_errors_witness :
    ∃ e, (new (GoType.structT [⟨"A", Kind.kSlice, "index"⟩]) :
        Except NewErr (RecordFile Unit)) = Except.error e :=
  (C7_new_schema_errors [⟨"A", Kind.kSlice, "index"⟩]).mpr
    ⟨⟨"A", Kind.kSlice, "index"⟩, by simp, Or.inr ⟨rfl, rfl⟩⟩

/-- C8: `Record(i)` is bounds-checked: inside `[0, NumRecord())` it
returns the `i`-th stored record, outside that range the slice access is
a deterministic contract violation (run-time panic), never undefined
behaviour. -/
theorem C8_record_bounds (rf : RecordFile γ) (i : Int) :
    (0 ≤ i ∧ i < (rf.NumRecord : Int) →
        rf.Record i = RecordResult.val (rf.records.getD i.toNat [])) ∧
    (¬ (0 ≤ i ∧ i < (rf.NumRecord : Int)) →
        rf.Record i = RecordResult.panicked) := by
  unfold RecordFile.Record RecordFile.NumRecord
  constructor <;> intro h
  · rw [if_pos h]
  · rw [if_neg h]

/-- C8 witness: on a one-record store, position 0 is returned and
positions 1 and -1 are contract violations. -/
theorem C8_record_bounds_witness :
    rfR.Record 0 = RecordResult.val [Value.vStr "alice", Value.vInt 30] ∧
    rfR.Record 1 = RecordResult.panicked ∧
    rfR.Record (-1) = RecordResult.panicked :=
  ⟨(C8_record_bounds rfR 0).1 (by decide),
   (C8_record_bounds rfR 1).2 (by decide),
   (C8_record_bounds rfR (-1)).2 (by decide)⟩

/-- C9 counterexample: the slot `-1` is outside the range of declared
indexes, but `Indexes(-1)` does not return the "no index" result — the
guard only checks `i >= len(rf.indexes)`, so a negative slot reaches the
slice access and panics. -/
theorem C9_counterexample :
    rfR.Indexes (-1) = IndexesResult.panicked ∧
    rfR.Indexes (-1) ≠ IndexesResult.nilIndex ∧
    ((-1 : Int) < 0 ∨ (rfR.indexes.length : Int) ≤ -1) := by decide

/-- C9 (amended): `Indexes(slot)` returns "no index" for every slot
`≥ len(indexes)`, the slot-th index for slots in range, and panics
(contract violation) for negative slots. -/
theorem C9_indexes_access (rf : RecordFile γ) (i : Int) :
    ((rf.indexes.length : Int) ≤ i → rf.Indexes i = IndexesResult.nilIndex) ∧
    (0 ≤ i ∧ i < (rf.indexes.length : Int) →
        rf.Indexes i = IndexesResult.found (rf.indexes.getD i.toNat [])) ∧
    (i < 0 → rf.Indexes i = IndexesResult.panicked) := by
  unfold RecordFile.Indexes
  refine ⟨fun h => ?_, fun h => ?_, fun h => ?_⟩
  · rw [if_pos h]
  · rw [if_neg (by omega), if_neg (by omega)]
  · rw [if_neg (by omega), if_pos h]

/-- C9 witness: slot 0 is found, slot 3 is "no index", slot -2 panics. -/
theorem C9_indexes_access_witness :
    rfR.Indexes 0 = IndexesResult.found [(Value.vInt 30, 0)] ∧
    rfR.Indexes 3 = IndexesResult.nilIndex ∧
    rfR.Indexes (-2) = IndexesResult.panicked :=
  ⟨(C9_indexes_access rfR 0).2.1 (by decide),
   (C9_indexes_access rfR 3).1 (by decide),
   (C9_indexes_access rfR (-2)).2.2 (by decide)⟩

/-- C10: whenever tokenization retains zero rows (for example empty
content, or content consisting only of comment lines and empty chunks),
`Read` does not return an error value: it reaches
`make([]interface{}, len(lines)-1)` with `len(lines) - 1 = -1` and
panics. -/
theorem C10_zero_rows_panics (jdec : Field → String → Option γ)
    (rf : RecordFile γ) (content : String)
    (h : ((applyDefaults rf).ReadData content).length = 0) :
    rf.Read jdec content = ReadResult.panicked (applyDefaults rf) ∧
    (applyDefaults rfW).ReadData "" = [] ∧
    (applyDefaults rfW).ReadData "#comment!####!\n#another!####!\n" = [] := by
  refine ⟨?_, by decide, by decide⟩
  unfold RecordFile.Read
  rw [if_pos h]

/-- C10 witness: reading the empty file content panics. -/
theorem C10_zero_rows_panics_witness :
    rfW.Read jdU "" = ReadResult.panicked rfWD :=
  (C10_zero_rows_panics jdU rfW "" (by decide)).1

end Claims

end Recordfile
